import Mathlib

/-!
Verification development for the `ipo_research` repository.

The Python sources are shallowly embedded: Python values that flow through
the pipeline are modelled by the inductive type `Val` (JSON-like data:
`None`, strings, numbers, lists, dicts), Python `dict`s by insertion-ordered
association lists with overwrite-in-place update semantics, and the
network/LLM calls of the pipeline by an explicit environment record that
supplies each call's result.  Numbers are modelled by `ℚ` (the claims under
scrutiny never depend on binary floating-point rounding, only on which
entries are produced and on exact integer data).
-/

namespace Ipo

/-- Python runtime values as they occur in this program (JSON-shaped data).
`vnum` models both Python `int` and `float`; the claims never depend on
float rounding. -/
inductive Val where
  | vnone : Val
  | vstr (s : String) : Val
  | vnum (q : ℚ) : Val
  | vlist (l : List Val) : Val
  | vdict (d : List (String × Val)) : Val

/-- Python dicts are insertion-ordered association lists. -/
abbrev Dict := List (String × Val)

/-- Python truthiness (`bool(v)`) for the modelled values. -/
def pyTruthy : Val → Bool
  | .vnone => false
  | .vstr s => s != ""
  | .vnum q => decide (q ≠ 0)
  | .vlist l => !l.isEmpty
  | .vdict d => !d.isEmpty

/-- Dict lookup (`d[k]` / `k in d`): first binding for the key. -/
def dget : Dict → String → Option Val
  | [], _ => none
  | (k', v) :: rest, k => if k' = k then some v else dget rest k

/-- Python `d.get(k, default)`. -/
def pyGetD (d : Dict) (k : String) (default : Val) : Val :=
  (dget d k).getD default

/-- Python `d[k] = v`: overwrite in place if the key exists (keeping its
position), otherwise append (insertion order). -/
def dset : Dict → String → Val → Dict
  | [], k, v => [(k, v)]
  | (k', v') :: rest, k, v =>
    if k' = k then (k, v) :: rest else (k', v') :: dset rest k v

/-- Python `d.update(other)`: assign every binding of `other` in order. -/
def dupdate (d other : Dict) : Dict :=
  other.foldl (fun acc kv => dset acc kv.1 kv.2) d

/-- Python `str(v)` restricted to the shapes the program feeds it.
Strings and integral numbers are exact (`str("x") = "x"`, `str(2024) =
"2024"`, `str(None) = "None"`); float/list/dict reprs are placeholders and
every theorem that depends on `pyStr` carries a hypothesis excluding them. -/
def pyStr : Val → String
  | .vstr s => s
  | .vnum q => if q.den = 1 then toString q.num else toString q
  | .vnone => "None"
  | .vlist _ => "<list>"
  | .vdict _ => "<dict>"

/-! ### String utilities shared by the embedded functions -/

/-- Case folding as used for Python's `.lower()` / `re.IGNORECASE` on the
ASCII keywords of this program (non-ASCII case folding does not arise for
the Korean keywords, which are caseless). -/
def lcase (s : List Char) : List Char := s.map Char.toLower

/-- Case-insensitive `startswith` (both sides case folded). -/
def startsWithCI (s pre : List Char) : Bool :=
  lcase (s.take pre.length) == lcase pre

/-- Python `str.find(needle, start)` on the suffix starting at `i`,
returning the absolute index of the first occurrence. -/
def findFromAux (needle : List Char) : List Char → Nat → Option Nat
  | s, i =>
    if needle.isPrefixOf s then some i
    else
      match s with
      | [] => none
      | _ :: rest => findFromAux needle rest (i + 1)

/-- Python `hay.find(needle, start)` (as an `Option` instead of `-1`). -/
def findFrom (hay needle : List Char) (start : Nat) : Option Nat :=
  findFromAux needle (hay.drop start) start

/-- Python `hay.count(pat)` for non-empty `pat`: non-overlapping
occurrences counted left to right. -/
def countOcc (pat : List Char) (s : List Char) : Nat :=
  if hs : s.isEmpty then 0
  else if hp : pat.isPrefixOf s ∧ pat ≠ [] then
    1 + countOcc pat (s.drop pat.length)
  else countOcc pat s.tail
termination_by s.length
decreasing_by
  · have h1 : 0 < pat.length := List.length_pos.mpr hp.2
    have h2 : 0 < s.length := by
      cases s with
      | nil => simp at hs
      | cons a t => simp
    simp only [List.length_drop]
    omega
  · cases s with
    | nil => simp at hs
    | cons a t => simp

/-- Number of maximal runs of at least three consecutive decimal digits
(the value of `len(re.findall(r"\d{3,}", s))`; the program only meets
ASCII digits). `run` is the length of the digit run currently open. -/
def countRunsAux : List Char → Nat → Nat
  | [], run => if run ≥ 3 then 1 else 0
  | c :: rest, run =>
    if c.isDigit then countRunsAux rest (run + 1)
    else (if run ≥ 3 then 1 else 0) + countRunsAux rest 0

def countNumRuns (s : List Char) : Nat := countRunsAux s 0

/-- Python substring membership `sub in s` (case sensitive). -/
def containsSub (s sub : String) : Bool := (findFrom s.data sub.data 0).isSome

/-- Python `name.endswith(suffix)` character-wise. -/
def strEndsWith (s suffix : String) : Bool := suffix.data.isSuffixOf s.data

/-- Python `name.startswith(prefix)` character-wise. -/
def strStartsWith (s p : String) : Bool := p.data.isPrefixOf s.data

/-- Lexicographic code-point comparison on character lists (Python's `<`
on strings). -/
def clLt : List Char → List Char → Bool
  | [], [] => false
  | [], _ :: _ => true
  | _ :: _, [] => false
  | a :: as, b :: bs =>
    if a.toNat < b.toNat then true
    else if b.toNat < a.toNat then false
    else clLt as bs

/-- String `a <= b`, code-point lexicographic. -/
def nameLe (a b : String) : Bool := !clLt b.data a.data

/-! ### Stable insertion sort (Python's `list.sort` is stable) -/

/-- Insert `x` (an element that precedes the list elements in the original
order) before the first element `y` with `le x y`; for a total preorder
`le` this realises a stable sort. -/
def sInsert (le : α → α → Bool) (x : α) : List α → List α
  | [] => [x]
  | y :: ys => if le x y then x :: y :: ys else y :: sInsert le x ys

/-- Stable sort by the comparator `le` (insertion sort). -/
def sSort (le : α → α → Bool) : List α → List α
  | [] => []
  | x :: xs => sInsert le x (sSort le xs)

/-! ### `parsers/offering.py`: `merge_offering_data` -/

/-- The fixed field/label table `extra_fields` of `merge_offering_data`
("data only obtainable from 38.co.kr"), in source order. -/
def extraFields : List (String × String) :=
  [("confirmed_price", "확정공모가"),
   ("institutional_competition", "기관경쟁률"),
   ("lockup_commitment", "의무보유확약비율"),
   ("listing_date", "상장예정일"),
   ("demand_forecast_date", "수요예측일"),
   ("subscription_date", "청약일"),
   ("lead_underwriter", "주관사"),
   ("offering_shares", "공모주식수"),
   ("total_shares", "상장예정주식수"),
   ("institutional_allocation", "기관배정비율"),
   ("retail_allocation", "일반배정비율"),
   ("employee_allocation", "우리사주배정비율")]

/-- The body of the `for field, label in extra_fields.items()` loop:
`if field in crawler_data and crawler_data[field]:
merged["crawler_" + field] = crawler_data[field]`. -/
def mergeStep (c acc : Dict) (fl : String × String) : Dict :=
  match dget c fl.1 with
  | some v => if pyTruthy v then dset acc ("crawler_" ++ fl.1) v else acc
  | none => acc

/-- Source `merge_offering_data(dart_data, crawler_data)`: copy `dart_data`;
if `crawler_data` is falsy (`None` or empty) return the copy; otherwise,
for each of the twelve `extra_fields` in order, if the crawler dict has a
truthy value for the field, assign it under the key `"crawler_" + field`. -/
def merge_offering_data (dart_data : Dict) (crawler_data : Option Dict) : Dict :=
  match crawler_data with
  | none => dart_data
  | some c =>
    if c.isEmpty then dart_data
    else extraFields.foldl (mergeStep c) dart_data

/-! ### `parsers/financial.py`: `calc_growth_rates` -/

/-- The three fields `calc_growth_rates` annotates. -/
def growthFields : List String := ["revenue", "operating_income", "net_income"]

/-- The keys `calc_growth_rates` may write. -/
def yoyKeys : List String :=
  ["revenue_yoy", "operating_income_yoy", "net_income_yoy"]

/-- One field of the body of `calc_growth_rates`' inner loop:
`if prev_val and curr_val and prev_val != 0: curr[field+"_yoy"] =
(curr_val - prev_val) / abs(prev_val)`.  The guard is Python truthiness;
for numbers, truthy already means non-zero, so the arithmetic only runs
with a non-zero divisor.  A truthy non-number would raise `TypeError` in
Python; the theorems about this function restrict to number-or-`None`
fields, where the model is exact. -/
def addYoyField (prev curr : Dict) (field : String) : Dict :=
  match dget prev field, dget curr field with
  | some (.vnum p), some (.vnum c) =>
    if p ≠ 0 ∧ c ≠ 0 then dset curr (field ++ "_yoy") (.vnum ((c - p) / |p|))
    else curr
  | _, _ => curr

/-- The inner `for field in [...]` loop of `calc_growth_rates` applied to
one pair of consecutive rows. -/
def addYoys (prev curr : Dict) : Dict :=
  growthFields.foldl (addYoyField prev) curr

/-- Source `calc_growth_rates(summary)`: walk consecutive rows `(i-1, i)` and
annotate row `i` in place; the updated row `i` is the predecessor of row
`i+1` (Python mutates the list). -/
def calc_growth_rates : List Dict → List Dict
  | [] => []
  | [r] => [r]
  | r₁ :: r₂ :: rest => r₁ :: calc_growth_rates (addYoys r₁ r₂ :: rest)
termination_by l => l.length

/-- Declarative form of `calc_growth_rates`: row `0` unchanged, row `i ≥ 1`
is row `i` annotated against the original row `i-1` (`zipWith` pairs each
row with its successor). -/
def calcSpec : List Dict → List Dict
  | [] => []
  | r :: rest => r :: List.zipWith addYoys (r :: rest) rest

/-- The value `calc_growth_rates` leaves under `field + "_yoy"` in row `i`
(`rc`), given the original predecessor row `rp`: the growth rate
`(curr - prev) / abs(prev)` exactly when both values are numbers and
non-zero, otherwise whatever the row already had. -/
def yoySpec (rp rc : Dict) (f : String) : Option Val :=
  match dget rp f, dget rc f with
  | some (.vnum p), some (.vnum c) =>
    if p ≠ 0 ∧ c ≠ 0 then some (.vnum ((c - p) / |p|))
    else dget rc (f ++ "_yoy")
  | _, _ => dget rc (f ++ "_yoy")

/-- A field value on which the Python guard of `calc_growth_rates` cannot
raise `TypeError`: absent, `None`, or a number. -/
def numOrNoneB : Option Val → Bool
  | none => true
  | some .vnone => true
  | some (.vnum _) => true
  | _ => false

/-- Rows whose growth fields are all number-or-`None` (the shapes the
program actually feeds `calc_growth_rates`; on other truthy values the
Python raises and the model is not claimed faithful). -/
def rowsNumericB (l : List Dict) : Bool :=
  l.all (fun r => growthFields.all (fun f => numOrNoneB (dget r f)))

/-! ### `main.py`: `_convert_filing_financials` -/

/-- Year normalization inside `_convert_filing_financials`:
`year.split(".")[0]` when the string contains a dot, else `year[:4]` when
it has at least four characters, else the string itself. -/
def normYear (s : String) : String :=
  if s.contains '.' then s.takeWhile (· ≠ '.')
  else if s.length ≥ 4 then s.take 4
  else s

/-- The money fields copied from each LLM-extracted item. -/
def filingMoneyFields : List String :=
  ["revenue", "operating_income", "net_income", "total_assets",
   "total_liabilities", "total_equity", "operating_cashflow"]

/-- The row literal built for one LLM-extracted item (source order of the
Python dict literal). -/
def buildFilingRow (item : Dict) : Dict :=
  ("year", Val.vstr (normYear (pyStr (pyGetD item "year" (.vstr ""))))) ::
    (filingMoneyFields.map (fun f => (f, pyGetD item f .vnone))) ++
    [("source", Val.vstr "증권신고서")]

/-- Sort key `x["year"]` (always a string on the rows this program builds). -/
def yearKey (r : Dict) : String :=
  match dget r "year" with
  | some (.vstr s) => s
  | _ => ""

/-- The `seen`-set deduplication loop of `_convert_filing_financials`:
keep the first row for each year, in list order. -/
def dedupFirstBy (key : Dict → String) : List Dict → List String → List Dict
  | [], _ => []
  | x :: xs, seen =>
    if key x ∈ seen then dedupFirstBy key xs seen
    else x :: dedupFirstBy key xs (key x :: seen)

/-- Source `_convert_filing_financials(filing_fin)`: build a row per item, sort by
year string (stable), drop duplicate years keeping the first, and append
growth rates; empty input (or all-duplicate degenerate cases) yields `[]`. -/
def convertFilingFinancials (filing_fin : List Dict) : List Dict :=
  let result := filing_fin.map buildFilingRow
  let sorted := sSort (fun a b => yearKey a ≤ yearKey b) result
  let unique := dedupFirstBy yearKey sorted []
  if unique.isEmpty then [] else calc_growth_rates unique

/-- A `year` value whose `str()` the model renders exactly: absent, `None`,
a string, or an integer. -/
def yearValOkB : Option Val → Bool
  | none => true
  | some .vnone => true
  | some (.vstr _) => true
  | some (.vnum q) => q.den == 1
  | _ => false

/-! ### `parsers/llm_parser.py`: `_extract_section`

The first phase searches `re.search(f"<TITLE[^>]*>[^<]*{re.escape(kw)}[^<]*</TITLE>",
html, re.IGNORECASE)` for each keyword in priority order; only the start
index of the leftmost match is used.  The matcher below decides, position
by position, whether the pattern can match starting there: `"<TITLE"`
(case folded), then the first `'>'` (the `[^>]*>` part), then a run of
non-`'<'` characters containing the keyword, then `"</TITLE>"`. -/

/-- After the keyword: `[^<]*</TITLE>` — the characters up to the first
`'<'` must not contain `'<'` (vacuously true) and that `'<'` must open the
closing tag. -/
def titleCloseOk (u : List Char) : Bool :=
  match u.findIdx? (· == '<') with
  | none => false
  | some p => startsWithCI (u.drop p) "</title>".data

/-- Scan for `[^<]*{kw}[^<]*</TITLE>` in the text after the `'>'`:
try the keyword at each position, advancing only over non-`'<'`
characters. -/
def titleScanKw (kw : List Char) : List Char → Bool
  | [] => false
  | t@(c :: rest) =>
    (startsWithCI t kw && titleCloseOk (t.drop kw.length)) ||
      (c != '<' && titleScanKw kw rest)

/-- Does the TITLE pattern match starting at this suffix?  `[^>]*>` forces
the tag to close at the first `'>'` after `"<TITLE"`. -/
def matchTitleAt (kw s : List Char) : Bool :=
  startsWithCI s "<title".data &&
    match (s.drop 6).findIdx? (· == '>') with
    | none => false
    | some j => titleScanKw kw ((s.drop 6).drop (j + 1))

def titleSearchAux (kw : List Char) : List Char → Nat → Option Nat
  | s, i =>
    if matchTitleAt kw s then some i
    else
      match s with
      | [] => none
      | _ :: rest => titleSearchAux kw rest (i + 1)

/-- Leftmost start index of the TITLE pattern for this keyword
(`re.search` returns the leftmost match; only `match.start()` is used). -/
def titleSearch (html kw : List Char) : Option Nat := titleSearchAux kw html 0

/-- The slice `html[max(0, idx-200) : min(len(html), idx+max_chars)]`
(natural subtraction realises the `max(0, ·)`). -/
def sectionAt (html : List Char) (idx maxChars : Nat) : List Char :=
  (html.drop (idx - 200)).take (min html.length (idx + maxChars) - (idx - 200))

/-- Score `table_count * 5 + number_count`: `section.lower().count("<table")`
weighted five, plus the `\d{3,}` matches of the section. -/
def scoreOf (sec : List Char) : Nat :=
  5 * countOcc "<table".data (lcase sec) + countNumRuns sec

/-- The `while True` occurrence loop of the text phase: find the keyword
(case folded on both sides) from `start_pos`, score the surrounding slice,
keep it on a strict improvement, continue from `idx + len(kw)`.  The fuel
(`html.length + 1` at the top) is an upper bound on the number of
iterations for every non-empty keyword; on the empty keyword the Python
loop never terminates, which the claims exclude. -/
def scanBestAux (html lhtml lkw : List Char) (maxChars : Nat) :
    Nat → Nat → List Char → Nat → List Char × Nat
  | 0, _, best, bestScore => (best, bestScore)
  | fuel + 1, startPos, best, bestScore =>
    match findFrom lhtml lkw startPos with
    | none => (best, bestScore)
    | some idx =>
      let sec := sectionAt html idx maxChars
      let score := scoreOf sec
      if score > bestScore then
        scanBestAux html lhtml lkw maxChars fuel (idx + lkw.length) sec score
      else
        scanBestAux html lhtml lkw maxChars fuel (idx + lkw.length) best bestScore

def scanBest (html kw : List Char) (maxChars : Nat) : List Char × Nat :=
  scanBestAux html (lcase html) (lcase kw) maxChars (html.length + 1) 0 [] 0

/-- Phase 1 of `_extract_section`: the first keyword (priority order) with
a TITLE match, and its match start. -/
def titlePhase (html : List Char) : List (List Char) → Option Nat
  | [] => none
  | kw :: rest =>
    match titleSearch html kw with
    | some i => some i
    | none => titlePhase html rest

/-- Phase 2 of `_extract_section`: first keyword whose best occurrence
slice is non-empty with score above 10. -/
def textPhase (html : List Char) (maxChars : Nat) : List (List Char) → List Char
  | [] => []
  | kw :: rest =>
    let bs := scanBest html kw maxChars
    if bs.1 ≠ [] ∧ bs.2 > 10 then bs.1 else textPhase html maxChars rest

/-- Source `_extract_section(html, keywords, max_chars)`. -/
def extract_section (html : List Char) (keywords : List (List Char))
    (maxChars : Nat) : List Char :=
  match titlePhase html keywords with
  | some idx => (html.drop idx).take maxChars
  | none => textPhase html maxChars keywords

/-! ### Claim-side formulation of `_extract_section` (C3)

`extractSectionSpec` is written from the claim's sentence, not from the
loop: the occurrence list of each keyword is materialised, every slice is
scored, and the first slice attaining the maximum is returned when that
maximum exceeds 10. -/

/-- The non-overlapping occurrence indices of the (case folded) keyword. -/
def occListAux (lhtml lkw : List Char) : Nat → Nat → List Nat
  | 0, _ => []
  | fuel + 1, startPos =>
    match findFrom lhtml lkw startPos with
    | none => []
    | some idx => idx :: occListAux lhtml lkw fuel (idx + lkw.length)

def occList (html kw : List Char) : List Nat :=
  occListAux (lcase html) (lcase kw) (html.length + 1) 0

/-- Maximum of the scores of a list of occurrence slices (0 when empty). -/
def maxScores (score : Nat → Nat) (idxs : List Nat) : Nat :=
  idxs.foldr (fun i m => max (score i) m) 0

/-- Claim phrasing of the text phase for one keyword: score every
occurrence's surrounding slice, and if the best score exceeds 10 return
the (first) best-scoring slice. -/
def bestSliceSpec (html kw : List Char) (maxChars : Nat) : Option (List Char) :=
  let score := fun i => scoreOf (sectionAt html i maxChars)
  let idxs := occList html kw
  let m := maxScores score idxs
  if m > 10 then (idxs.find? (fun i => score i == m)).map (fun i => sectionAt html i maxChars)
  else none

/-- Claim phrasing of `_extract_section`: first TITLE-matching keyword's
slice of at most `max_chars` from the match; otherwise the first keyword
whose best score exceeds 10 contributes its best slice; otherwise `""`. -/
def extractSectionSpec (html : List Char) (keywords : List (List Char))
    (maxChars : Nat) : List Char :=
  match keywords.findSome? (fun kw => titleSearch html kw) with
  | some idx => (html.drop idx).take maxChars
  | none => (keywords.findSome? (fun kw => bestSliceSpec html kw maxChars)).getD []

/-- The accumulator loop underlying the text phase, as a standalone fold
(for relating `scanBestAux` to the occurrence list). -/
def bestFold (sect : Nat → List Char) (score : Nat → Nat) :
    List Char × Nat → List Nat → List Char × Nat
  | acc, [] => acc
  | acc, i :: rest =>
    bestFold sect score (if score i > acc.2 then (sect i, score i) else acc) rest

/-! ### `parsers/llm_parser.py`: `load_filing_html` (C7)

A filing directory is modelled as its list of `(file name, decoded text)`
pairs.  Reading is total: the Python reads with `errors="ignore"` (and an
`euc-kr` retry), so the decoded text of each file is simply part of the
model.  `glob` is name-order agnostic, and the source sorts each glob
result; `sorted` on `Path`s inside one directory is name order. -/

abbrev FilingDir := List (String × String)

/-- Python `sorted(filing_dir.glob("*" + ext))`: names ending in `ext`, hidden
files excluded, in sorted name order. -/
def globSorted (dir : FilingDir) (ext : String) : FilingDir :=
  sSort (fun a b => nameLe a.1 b.1)
    (dir.filter (fun f => strEndsWith f.1 ext && !strStartsWith f.1 "."))

/-- The accumulation loop of `load_filing_html`:
`combined += f"\n<!-- FILE: {f.name} -->\n{content}"`. -/
def combineFiles (files : FilingDir) : String :=
  files.foldl (fun combined f => combined ++ "\n<!-- FILE: " ++ f.1 ++ " -->\n" ++ f.2) ""

/-- Source `load_filing_html(filing_dir)`: the sorted `*.html` files followed by
the sorted `*.htm` files; only if that list is empty, the sorted `*.xml`
files. -/
def load_filing_html (dir : FilingDir) : String :=
  let html_files := globSorted dir ".html" ++ globSorted dir ".htm"
  let files := if html_files.isEmpty then globSorted dir ".xml" else html_files
  combineFiles files

/-- Claim-side formulation of `load_filing_html` (C7 refinement target),
following the claim's words: all `*.html` and `*.htm` files in one sorted
name order, with the same `*.xml` fallback. -/
def loadFilingHtmlPerClaim (dir : FilingDir) : String :=
  let html_files :=
    sSort (fun a b => nameLe a.1 b.1)
      (dir.filter (fun f =>
        (strEndsWith f.1 ".html" || strEndsWith f.1 ".htm") && !strStartsWith f.1 "."))
  let files := if html_files.isEmpty then globSorted dir ".xml" else html_files
  combineFiles files

/-! ### `parsers/llm_parser.py`: the four extraction functions and
`parse_full_filing` (C1, C2, C6)

An LLM interaction `_call_llm` followed by `_extract_json` is modelled as
an environment-supplied `Option Val` per call site (`none` covers both a
response without usable JSON and any failure the program treats as "no
data"); what the embedding tracks exactly is the control flow: which
sections are located, which calls are made, and which keys are stored. -/

structure LlmResps where
  lockup : Option Val
  business : Option Val
  valSummary : Option Val
  peer : Option Val
  financials : Option Val

def lockupKeywords : List String :=
  ["상장 후 유통가능 및 매각제한", "유통가능주식인", "매각제한 물량",
   "보호예수", "유통제한", "Lock-up", "lock-up"]

def businessKeywords : List String :=
  ["사업의 내용", "사업의내용", "회사의 개요", "주요제품", "주요 제품"]

def valuationKeywords : List String :=
  ["인수인의 의견", "비교가치", "공모가격에 대한 의견"]

def peerKeywords : List String :=
  ["비교기업의 주요 재무현황", "유사기업 요약 재무 현황", "비교기업 현황",
   "유사기업 현황"]

def perKeywords : List String :=
  ["비교기업 PER 산출", "적용 PER", "유사기업 PER", "PER 산출내역",
   "PER 산출 내역"]

def financialKeywords : List String :=
  ["요약 재무정보", "요약재무정보", "재무에 관한 사항", "재무제표",
   "손익계산서", "포괄손익계산서"]

def kwData (l : List String) : List (List Char) := l.map String.data

/-- Source `extract_lockup_schedule(html)`: one LLM call iff the section is
located; result is the call's extracted JSON.  The pair's second component
counts LLM calls. -/
def extract_lockup_schedule (html : List Char) (resp : Option Val) :
    Option Val × Nat :=
  let sec := extract_section html (kwData lockupKeywords) 15000
  if sec.isEmpty then (none, 0) else (resp, 1)

/-- Source `extract_business_summary(html)` (`max_chars=20000`). -/
def extract_business_summary (html : List Char) (resp : Option Val) :
    Option Val × Nat :=
  let sec := extract_section html (kwData businessKeywords) 20000
  if sec.isEmpty then (none, 0) else (resp, 1)

/-- Source `extract_peer_valuation(html)`: two passes.  Pass 1 (valuation
summary) calls the LLM iff its section is located; `_extract_json(result)
or {}` keeps a dict and turns every falsy result into `{}` (a truthy
non-dict would raise `TypeError` later in the Python — excluded by the
pipeline theorems' well-formedness hypotheses).  Pass 2 (peer financials)
calls the LLM iff the peer-financials or the PER section is located (the
labelled `combined` string is then non-empty): a dict response contributes
`peers` and optionally `average_per`, a list response is the peer list
itself, anything else leaves the peers empty.  Returns `None` iff both the
summary and the peers end up empty. -/
def extract_peer_valuation (html : List Char) (valResp peerResp : Option Val) :
    Option Val × Nat :=
  let val_section := extract_section html (kwData valuationKeywords) 20000
  let valCalls := if val_section.isEmpty then 0 else 1
  let valuation_summary : Dict :=
    if val_section.isEmpty then []
    else
      match valResp with
      | some (.vdict d) => d
      | _ => []
  let peer_section := extract_section html (kwData peerKeywords) 25000
  let per_section := extract_section html (kwData perKeywords) 15000
  let doPass2 := !peer_section.isEmpty || !per_section.isEmpty
  let peerCalls := if doPass2 then 1 else 0
  let step2 : Val × Dict :=
    if doPass2 then
      match peerResp with
      | some (.vdict d) =>
        if pyTruthy (pyGetD d "average_per" .vnone) then
          (pyGetD d "peers" (.vlist []),
           dset valuation_summary "average_peer_per" (pyGetD d "average_per" .vnone))
        else (pyGetD d "peers" (.vlist []), valuation_summary)
      | some (.vlist l) => (.vlist l, valuation_summary)
      | _ => (.vlist [], valuation_summary)
    else (.vlist [], valuation_summary)
  if step2.2.isEmpty ∧ ¬ pyTruthy step2.1 then (none, valCalls + peerCalls)
  else (some (.vdict (dset step2.2 "peers" step2.1)), valCalls + peerCalls)

/-- Source `extract_financials_from_filing(html)` (`max_chars=25000`). -/
def extract_financials_from_filing (html : List Char) (resp : Option Val) :
    Option Val × Nat :=
  let sec := extract_section html (kwData financialKeywords) 25000
  if sec.isEmpty then (none, 0) else (resp, 1)

/-- Assignment `result[key] = v` guarded by `if v:` — store only truthy extraction
results. -/
def storeIfTruthy (d : Dict) (k : String) (r : Option Val) : Dict :=
  match r with
  | some v => if pyTruthy v then dset d k v else d
  | none => d

structure ParseResult where
  data : Dict
  llmCalls : Nat
  finCalled : Bool

/-- Source `parse_full_filing(filing_dir, need_financials)`: empty loaded HTML
returns `{}` immediately (no LLM call, and in particular
`extract_financials_from_filing` is not reached); otherwise the lock-up,
business and peer-valuation extractions run, and the financial-statement
extraction runs iff `need_financials`.  `finCalled` records whether
`extract_financials_from_filing` was invoked; `llmCalls` counts LLM
calls. -/
def parse_full_filing (dir : FilingDir) (resps : LlmResps)
    (need_financials : Bool) : ParseResult :=
  let html := (load_filing_html dir).data
  if html.isEmpty then ⟨[], 0, false⟩
  else
    let el := extract_lockup_schedule html resps.lockup
    let r1 := storeIfTruthy [] "lockup_schedule" el.1
    let eb := extract_business_summary html resps.business
    let r2 := storeIfTruthy r1 "business" eb.1
    let ev := extract_peer_valuation html resps.valSummary resps.peer
    let r3 := storeIfTruthy r2 "valuation" ev.1
    if need_financials then
      let ef := extract_financials_from_filing html resps.financials
      let r4 := storeIfTruthy r3 "filing_financials" ef.1
      ⟨r4, el.2 + eb.2 + ev.2 + ef.2, true⟩
    else ⟨r3, el.2 + eb.2 + ev.2, false⟩

/-! ### `main.py`: `run_pipeline` (C1, C2, C5, C6)

The environment abstracts each external call of the pipeline by its
result:

* `corp` — `search_corp_code(company_name)` (a dict, or `None`);
* `company_info` — `get_company_info(corp_code)`;
* `filings` — `search_filings(corp_code, last_reprt_at="N")` rows (each
  carries `report_nm`, `rcept_no`, `rcept_dt`);
* `equity_parsed` — `parse_equity_registration(get_equity_registration(
  corp_code))`, `none` when the raw API result is falsy (the parsed
  offering's internal construction is not touched by any claim);
* `fin_base` — `build_financial_summary(get_financials_multi_year(
  corp_code))`, `none` when the raw result is falsy (the pipeline then
  applies `calc_growth_rates` to it, as in the source);
* `crawler` — the outcome of `search_by_name` on 38.co.kr: a raised
  exception (`error`) or the returned `dict | None`;
* `download` — `download_document(rcept_no)`: the filing directory, or
  `None`;
* `llm`, `analysisText` — the per-site LLM results (`generate_analysis`
  makes exactly one LLM call and returns `analysisText`). -/

structure Filing where
  report_nm : String
  rcept_no : String
  rcept_dt : String

structure Env where
  corp : Option Dict
  company_info : Option Dict
  filings : List Filing
  equity_parsed : Option Dict
  fin_base : Option (List Dict)
  crawler : Except String (Option Dict)
  download : Option FilingDir
  llm : LlmResps
  analysisText : String

def truthyOptDict : Option Dict → Bool
  | some d => !d.isEmpty
  | none => false

def truthyOptStr : Option String → Bool
  | some s => s != ""
  | none => false

def asDict : Val → Dict
  | .vdict d => d
  | _ => []

/-- View of `filing_financials` as the list of item dicts `_convert_filing_financials`
iterates (exact on list-of-dict values, the only shapes the pipeline
theorems admit). -/
def asListOfDicts : Val → List Dict
  | .vlist l => l.map asDict
  | _ => []

/-- The `candidates` list of Step 2: filings whose `report_nm` contains
"증권신고서" but neither "발행실적" nor "발행조건확정", tagged with
priority 0 for "기재정정" (amended) filings and 1 otherwise. -/
def filingCandidates (filings : List Filing) : List (Nat × Filing) :=
  (filings.filter (fun f => containsSub f.report_nm "증권신고서" &&
      !containsSub f.report_nm "발행실적" &&
      !containsSub f.report_nm "발행조건확정")).map
    (fun f => (if containsSub f.report_nm "기재정정" then 0 else 1, f))

/-- The `rcept_no` after Step 2: the best candidate (stable sort by priority),
falling back to the newest filing when no candidate has a truthy
`rcept_no`; `None` when there are no filings at all. -/
def chooseRcept (filings : List Filing) : Option String :=
  if filings.isEmpty then none
  else
    let candidates := sSort (fun a b => a.1 ≤ b.1) (filingCandidates filings)
    let r1 : Option String :=
      match candidates.head? with
      | some pf => some pf.2.rcept_no
      | none => none
    if truthyOptStr r1 then r1
    else some ((filings.headD ⟨"", "", ""⟩).rcept_no)

/-- The first 투자설명서 (investment prospectus, non-attachment) filing. -/
def investDoc (filings : List Filing) : Option String :=
  (filings.find? (fun f => containsSub f.report_nm "투자설명서" &&
      !containsSub f.report_nm "첨부")).map (·.rcept_no)

/-- Step 2 of `run_pipeline`: store the truthy company info, the
`_invest_doc_rcept_no` (possibly `None`) whenever any filings exist, the
parsed offering when the equity API returned data, and the financial
summary (with growth rates) when the financial API returned data. -/
def step2 (env : Env) : Dict :=
  let c1 := if truthyOptDict env.company_info then
      dset [] "company_info" (.vdict (env.company_info.getD [])) else []
  let c2 := if env.filings.isEmpty then c1
    else dset c1 "_invest_doc_rcept_no"
      (match investDoc env.filings with
       | some r => .vstr r
       | none => .vnone)
  let c3 := match env.equity_parsed with
    | some p => dset c2 "offering" (.vdict p)
    | none => c2
  match env.fin_base with
  | some base => dset c3 "financials" (.vlist ((calc_growth_rates base).map Val.vdict))
  | none => c3

/-- Step 3 of `run_pipeline`: the 38.co.kr crawl.  An exception is caught
and treated exactly like `None`; a truthy result is stored and merged into
the offering when one exists. -/
def step3 (env : Env) (c : Dict) : Dict :=
  let crawler_data : Option Dict :=
    match env.crawler with
    | .error _ => none
    | .ok v => v
  match crawler_data with
  | some d =>
    if d.isEmpty then c
    else
      let c1 := dset c "crawler_data" (.vdict d)
      if (dget c1 "offering").isSome then
        dset c1 "offering"
          (.vdict (merge_offering_data (asDict (pyGetD c1 "offering" .vnone)) (some d)))
      else c1
  | none => c

/-- Step 4 of `run_pipeline`: download and parse the filing when not
skipped and a truthy `rcept_no` exists; merge the parsed dict into
`collected`; when DART financials were absent and the LLM extracted
filing financials, convert them into the summary format.  Returns the new
`collected`, the LLM calls made, and whether the financial fallback
extractor was invoked. -/
def step4 (env : Env) (skip_filing : Bool) (rcept : Option String) (c : Dict) :
    Dict × Nat × Bool :=
  if !skip_filing && truthyOptStr rcept then
    match env.download with
    | some dirFiles =>
      let has_fin := pyTruthy (pyGetD c "financials" .vnone)
      let pr := parse_full_filing dirFiles env.llm (!has_fin)
      let c1 := dupdate c pr.data
      let c2 :=
        if !has_fin && (dget c1 "filing_financials").isSome then
          let fs := convertFilingFinancials
            (asListOfDicts (pyGetD c1 "filing_financials" .vnone))
          if fs.isEmpty then c1 else dset c1 "financials" (.vlist (fs.map Val.vdict))
        else c1
      (c2, pr.llmCalls, pr.finCalled)
    | none => (c, 0, false)
  else (c, 0, false)

/-- Step 5 of `run_pipeline`: one `generate_analysis` LLM call unless
skipped; the report is stored in `collected`. -/
def step5 (env : Env) (skip_analysis : Bool) (c : Dict) : Dict × String × Nat :=
  if !skip_analysis then
    (dset c "analysis_report" (.vstr env.analysisText), env.analysisText, 1)
  else (c, "", 0)

structure PipeResult where
  collected : Dict
  reportSaved : Bool
  excelSaved : Bool
  jsonSaved : Bool
  jsonData : Dict
  llmCalls : Nat
  crawlerCalls : Nat
  finCalled : Bool

/-- Source `run_pipeline(company_name, skip_filing, skip_analysis)`: `none` models
the early `return` when the company cannot be resolved to a DART corp
code; otherwise Steps 2–6 run in order.  Step 6 saves the markdown report
iff the analysis report is non-empty, and always writes the spreadsheet
and the raw JSON (the JSON excludes the `analysis_report` key). -/
def run_pipeline (env : Env) (skip_filing skip_analysis : Bool) :
    Option PipeResult :=
  if !truthyOptDict env.corp then none
  else
    let c2 := step2 env
    let rcept := chooseRcept env.filings
    let c3 := step3 env c2
    let s4 := step4 env skip_filing rcept c3
    let s5 := step5 env skip_analysis s4.1
    some
      { collected := s5.1
        reportSaved := s5.2.1 != ""
        excelSaved := true
        jsonSaved := true
        jsonData := s5.1.filter (fun kv => kv.1 != "analysis_report")
        llmCalls := s4.2.1 + s5.2.2
        crawlerCalls := 1
        finCalled := s4.2.2 }

/-! ### Well-formedness of environments (crash exclusion)

The model is total where the Python can raise: a truthy non-dict JSON for
the valuation summary, a truthy non-list (or list of non-dicts, or items
with truthy non-numeric money fields) for the filing financials, or
non-numeric DART summary rows would raise `TypeError` in the source.
Pipeline theorems assume environments outside these crash domains. -/

def wfMoney (d : Dict) : Bool :=
  growthFields.all (fun f => numOrNoneB (dget d f))

def wfFinItem : Val → Bool
  | .vdict d => wfMoney d
  | _ => false

def wfFinResp : Option Val → Bool
  | none => true
  | some v =>
    if pyTruthy v then
      match v with
      | .vlist l => l.all wfFinItem
      | _ => false
    else true

def wfValResp : Option Val → Bool
  | none => true
  | some v =>
    if pyTruthy v then
      match v with
      | .vdict _ => true
      | _ => false
    else true

def envWF (env : Env) : Bool :=
  wfValResp env.llm.valSummary && wfFinResp env.llm.financials &&
    (match env.fin_base with
     | some base => rowsNumericB base
     | none => true)

/-! ### Concrete environments used by witnesses and counterexamples -/

/-- A minimal resolvable company: no filings, no crawler data, no filing
download; the analysis LLM answers with a non-empty report. -/
def c1env : Env :=
  { corp := some [("corp_code", .vstr "01234567")]
    company_info := none
    filings := []
    equity_parsed := none
    fin_base := none
    crawler := .ok none
    download := some []
    llm := ⟨none, none, none, none, none⟩
    analysisText := "# research report" }

/-- A document whose TITLE tags locate every extraction section of
`parse_full_filing` (one keyword of each priority list). -/
def c2html : String :=
  "<title>보호예수</title><title>사업의 내용</title><title>비교가치</title><title>비교기업 현황</title><title>적용 PER</title><title>재무제표</title>"

def c2dir : FilingDir := [("doc.html", c2html)]

/-- A complete run: company resolved, a 증권신고서 filing found and
downloaded, every extraction section located, DART financials absent
(fallback triggered), analysis not skipped. -/
def c2env : Env :=
  { corp := some [("corp_code", .vstr "00000000")]
    company_info := none
    filings := [⟨"증권신고서(지분증권)", "20240101000001", "20240101"⟩]
    equity_parsed := none
    fin_base := none
    crawler := .ok none
    download := some c2dir
    llm :=
      { lockup := some (.vlist [.vdict [("period", .vstr "상장일 유통가능")]])
        business := some (.vdict [("main_business", .vstr "summary")])
        valSummary := some (.vdict [("valuation_method", .vstr "PER")])
        peer := some (.vdict [("peers", .vlist [])])
        financials := some (.vlist [.vdict
          [("year", .vstr "2023"), ("revenue", .vnum 100)]]) }
    analysisText := "report" }

/-- Environment `c1env` with a DART financial summary present (claim C6's frame). -/
def c6env : Env :=
  { c1env with fin_base := some [[("year", .vstr "2023"), ("revenue", .vnum 5)]] }

/-! ## Theorems -/

theorem sInsert_perm (le : α → α → Bool) (x : α) (l : List α) :
    (sInsert le x l).Perm (x :: l) := by
  induction l with
  | nil => simp [sInsert]
  | cons y ys ih =>
    by_cases hxy : le x y = true
    · simp [sInsert, hxy]
    · simp only [sInsert, hxy, if_false]
      exact (List.Perm.cons y ih).trans (List.Perm.swap x y ys)

theorem sInsert_pairwise (le : α → α → Bool)
    (htot : ∀ a b, le a b = true ∨ le b a = true)
    (htrans : ∀ a b c, le a b = true → le b c = true → le a c = true)
    (x : α) (l : List α) (h : l.Pairwise (fun a b => le a b = true)) :
    (sInsert le x l).Pairwise (fun a b => le a b = true) := by
  induction l with
  | nil => simp [sInsert]
  | cons y ys ih =>
    rw [List.pairwise_cons] at h
    by_cases hxy : le x y = true
    · simp only [sInsert, hxy, if_true]
      refine List.pairwise_cons.mpr ⟨?_, List.pairwise_cons.mpr h⟩
      intro a ha
      rcases List.mem_cons.mp ha with rfl | ha
      · exact hxy
      · exact htrans x y a hxy (h.1 a ha)
    · simp only [sInsert, hxy, if_false]
      refine List.pairwise_cons.mpr ⟨?_, ih h.2⟩
      intro a ha
      rcases List.mem_cons.mp ((sInsert_perm le x ys).mem_iff.mp ha) with rfl | hmem
      · exact (htot a y).resolve_left hxy
      · exact h.1 a hmem

theorem sSort_pairwise (le : α → α → Bool)
    (htot : ∀ a b, le a b = true ∨ le b a = true)
    (htrans : ∀ a b c, le a b = true → le b c = true → le a c = true)
    (l : List α) : (sSort le l).Pairwise (fun a b => le a b = true) := by
  induction l with
  | nil => simp [sSort]
  | cons x xs ih => exact sInsert_pairwise le htot htrans x _ ih

theorem sSort_perm (le : α → α → Bool) (l : List α) :
    (sSort le l).Perm l := by
  induction l with
  | nil => simp [sSort]
  | cons x xs ih =>
    exact (sInsert_perm le x (sSort le xs)).trans (List.Perm.cons x ih)

theorem dget_dset_ne (d : Dict) (k k' : String) (v : Val) (h : k ≠ k') :
    dget (dset d k v) k' = dget d k' := by
  induction d with
  | nil => simp [dset, dget, h]
  | cons kv rest ih =>
    obtain ⟨k₀, v₀⟩ := kv
    by_cases hk : k₀ = k
    · subst hk; simp [dset, dget, h]
    · simp only [dset, if_neg hk, dget]
      by_cases hk' : k₀ = k' <;> simp [hk', ih]

theorem dget_dset_self (d : Dict) (k : String) (v : Val) :
    dget (dset d k v) k = some v := by
  induction d with
  | nil => simp [dset, dget]
  | cons kv rest ih =>
    obtain ⟨k₀, v₀⟩ := kv
    by_cases hk : k₀ = k
    · subst hk; simp [dset, dget]
    · simp [dset, hk, dget, ih]

/-! ### Lemmas about `merge_offering_data` -/

theorem foldl_mergeStep_dget_ne (c : Dict) :
    ∀ (fields : List (String × String)) (acc : Dict) (k : String),
      (∀ fl ∈ fields, k ≠ "crawler_" ++ fl.1) →
      dget (fields.foldl (mergeStep c) acc) k = dget acc k := by
  intro fields
  induction fields with
  | nil => intro acc k _; rfl
  | cons fl rest ih =>
    intro acc k h
    simp only [List.foldl_cons]
    rw [ih _ k (fun g hg => h g (List.mem_cons_of_mem _ hg))]
    have hk : k ≠ "crawler_" ++ fl.1 := h fl (List.mem_cons_self _ _)
    cases hdg : dget c fl.1 with
    | none => simp only [mergeStep, hdg]
    | some v =>
      by_cases ht : pyTruthy v = true
      · simp only [mergeStep, hdg, ht, if_true]
        exact dget_dset_ne _ _ _ _ (fun he => hk he.symm)
      · simp [mergeStep, hdg, ht]

theorem foldl_mergeStep_changed (c : Dict) :
    ∀ (fields : List (String × String)) (acc : Dict) (k : String),
      dget (fields.foldl (mergeStep c) acc) k ≠ dget acc k →
      ∃ fl ∈ fields, k = "crawler_" ++ fl.1 ∧ ∃ v, dget c fl.1 = some v ∧
        pyTruthy v = true ∧ dget (fields.foldl (mergeStep c) acc) k = some v := by
  intro fields
  induction fields with
  | nil => intro acc k h; exact absurd rfl h
  | cons fl rest ih =>
    intro acc k h
    simp only [List.foldl_cons] at h ⊢
    by_cases hrest :
        dget (rest.foldl (mergeStep c) (mergeStep c acc fl)) k =
          dget (mergeStep c acc fl) k
    · rw [hrest] at h ⊢
      cases hdg : dget c fl.1 with
      | none => simp only [mergeStep, hdg] at h; exact absurd rfl h
      | some v =>
        by_cases ht : pyTruthy v = true
        · simp only [mergeStep, hdg, ht, if_true] at h ⊢
          by_cases hk : k = "crawler_" ++ fl.1
          · subst hk
            exact ⟨fl, List.mem_cons_self _ _, rfl, v, hdg, ht, dget_dset_self _ _ _⟩
          · rw [dget_dset_ne _ _ _ _ (fun he => hk he.symm)] at h
            exact absurd rfl h
        · simp [mergeStep, hdg, ht] at h
    · obtain ⟨fl', hmem, hk, v, hdg, ht, hval⟩ := ih (mergeStep c acc fl) k hrest
      exact ⟨fl', List.mem_cons_of_mem _ hmem, hk, v, hdg, ht, hval⟩

/-! ### Lemmas about `calc_growth_rates` -/

theorem dget_addYoyField_ne (prev curr : Dict) (field k : String)
    (h : k ≠ field ++ "_yoy") :
    dget (addYoyField prev curr field) k = dget curr k := by
  cases hp : dget prev field with
  | none => simp [addYoyField, hp]
  | some vp =>
    cases vp with
    | vnum p =>
      cases hc : dget curr field with
      | none => simp [addYoyField, hp, hc]
      | some vc =>
        cases vc with
        | vnum c =>
          simp only [addYoyField, hp, hc]
          split
          · exact dget_dset_ne _ _ _ _ (fun he => h he.symm)
          · rfl
        | vnone => simp [addYoyField, hp, hc]
        | vstr s => simp [addYoyField, hp, hc]
        | vlist l => simp [addYoyField, hp, hc]
        | vdict d => simp [addYoyField, hp, hc]
    | vnone => simp [addYoyField, hp]
    | vstr s => simp [addYoyField, hp]
    | vlist l => simp [addYoyField, hp]
    | vdict d => simp [addYoyField, hp]

theorem dget_addYoys_not_yoy (prev curr : Dict) (k : String) (h : k ∉ yoyKeys) :
    dget (addYoys prev curr) k = dget curr k := by
  simp only [yoyKeys, List.mem_cons, List.not_mem_nil, or_false, not_or] at h
  obtain ⟨h1, h2, h3⟩ := h
  simp only [addYoys, growthFields, List.foldl_cons, List.foldl_nil]
  rw [dget_addYoyField_ne _ _ _ _ h3, dget_addYoyField_ne _ _ _ _ h2,
    dget_addYoyField_ne _ _ _ _ h1]

theorem yearKey_addYoys (prev curr : Dict) :
    yearKey (addYoys prev curr) = yearKey curr := by
  unfold yearKey
  rw [dget_addYoys_not_yoy _ _ _ (by decide)]

theorem addYoyField_congr_prev (p₁ p₂ c : Dict) (field : String)
    (h : dget p₁ field = dget p₂ field) :
    addYoyField p₁ c field = addYoyField p₂ c field := by
  unfold addYoyField
  rw [h]

theorem addYoys_congr_prev (p₁ p₂ c : Dict)
    (h1 : dget p₁ "revenue" = dget p₂ "revenue")
    (h2 : dget p₁ "operating_income" = dget p₂ "operating_income")
    (h3 : dget p₁ "net_income" = dget p₂ "net_income") :
    addYoys p₁ c = addYoys p₂ c := by
  simp only [addYoys, growthFields, List.foldl_cons, List.foldl_nil]
  rw [addYoyField_congr_prev p₁ p₂ _ "revenue" h1]
  rw [addYoyField_congr_prev p₁ p₂ _ "operating_income" h2]
  rw [addYoyField_congr_prev p₁ p₂ _ "net_income" h3]

theorem addYoys_prev_mutated (p r r' : Dict) :
    addYoys (addYoys p r) r' = addYoys r r' :=
  addYoys_congr_prev (addYoys p r) r r'
    (dget_addYoys_not_yoy p r _ (by decide))
    (dget_addYoys_not_yoy p r _ (by decide))
    (dget_addYoys_not_yoy p r _ (by decide))

theorem calc_eq_calcSpec : ∀ l : List Dict, calc_growth_rates l = calcSpec l := by
  have key : ∀ (n : Nat) (l : List Dict), l.length ≤ n →
      calc_growth_rates l = calcSpec l := by
    intro n
    induction n with
    | zero =>
      intro l hl
      match l with
      | [] => simp [calc_growth_rates, calcSpec]
    | succ n ih =>
      intro l hl
      match l with
      | [] => simp [calc_growth_rates, calcSpec]
      | [r] => simp [calc_growth_rates, calcSpec]
      | r₁ :: r₂ :: rest =>
        rw [calc_growth_rates]
        rw [ih (addYoys r₁ r₂ :: rest) (by simp at hl ⊢; omega)]
        cases rest with
        | nil => rfl
        | cons x rest' =>
          simp only [calcSpec, List.zipWith]
          rw [addYoys_prev_mutated]
  exact fun l => key l.length l le_rfl

theorem map_yearKey_zipWith :
    ∀ (ys xs : List Dict), ys.length ≤ xs.length →
      (List.zipWith addYoys xs ys).map yearKey = ys.map yearKey := by
  intro ys
  induction ys with
  | nil => intro xs h; simp
  | cons y ys' ih =>
    intro xs h
    cases xs with
    | nil => simp at h
    | cons x xs' =>
      simp only [List.zipWith, List.map, List.cons.injEq]
      exact ⟨yearKey_addYoys x y, ih xs' (by simpa using h)⟩

theorem map_yearKey_calc (l : List Dict) :
    (calc_growth_rates l).map yearKey = l.map yearKey := by
  rw [calc_eq_calcSpec]
  cases l with
  | nil => rfl
  | cons r rest =>
    simp only [calcSpec, List.map]
    congr 1
    exact map_yearKey_zipWith rest (r :: rest) (by simp)

theorem mem_zipWith_addYoys :
    ∀ (xs ys : List Dict) (r : Dict), r ∈ List.zipWith addYoys xs ys →
      ∃ a b, b ∈ ys ∧ r = addYoys a b := by
  intro xs
  induction xs with
  | nil => intro ys r h; simp at h
  | cons x xs' ih =>
    intro ys r h
    cases ys with
    | nil => simp at h
    | cons y ys' =>
      simp only [List.zipWith] at h
      rcases List.mem_cons.mp h with rfl | h
      · exact ⟨x, y, List.mem_cons_self _ _, rfl⟩
      · obtain ⟨a, b, hb, hr⟩ := ih ys' r h
        exact ⟨a, b, List.mem_cons_of_mem _ hb, hr⟩

theorem calc_mem (l : List Dict) (r : Dict) (h : r ∈ calc_growth_rates l) :
    ∃ b ∈ l, ∀ k, k ∉ yoyKeys → dget r k = dget b k := by
  rw [calc_eq_calcSpec] at h
  cases l with
  | nil => simp [calcSpec] at h
  | cons x rest =>
    simp only [calcSpec] at h
    rcases List.mem_cons.mp h with rfl | h
    · exact ⟨r, List.mem_cons_self _ _, fun k _ => rfl⟩
    · obtain ⟨a, b, hb, rfl⟩ := mem_zipWith_addYoys _ _ _ h
      exact ⟨b, List.mem_cons_of_mem _ hb, fun k hk => dget_addYoys_not_yoy a b k hk⟩

/-! ### Lemmas about `dedupFirstBy` -/

theorem dedupFirstBy_not_mem_seen (key : Dict → String) :
    ∀ (l : List Dict) (seen : List String) (r : Dict),
      r ∈ dedupFirstBy key l seen → key r ∉ seen := by
  intro l
  induction l with
  | nil => intro seen r h; simp [dedupFirstBy] at h
  | cons x xs ih =>
    intro seen r h
    simp only [dedupFirstBy] at h
    by_cases hx : key x ∈ seen
    · rw [if_pos hx] at h; exact ih seen r h
    · rw [if_neg hx] at h
      rcases List.mem_cons.mp h with rfl | h
      · exact hx
      · intro hc
        exact ih _ r h (List.mem_cons_of_mem _ hc)

theorem dedupFirstBy_sublist (key : Dict → String) :
    ∀ (l : List Dict) (seen : List String),
      List.Sublist (dedupFirstBy key l seen) l := by
  intro l
  induction l with
  | nil => intro seen; simp [dedupFirstBy]
  | cons x xs ih =>
    intro seen
    simp only [dedupFirstBy]
    by_cases hx : key x ∈ seen
    · rw [if_pos hx]; exact (ih seen).cons x
    · rw [if_neg hx]; exact (ih _).cons₂ x

theorem dedupFirstBy_pairwise_ne (key : Dict → String) :
    ∀ (l : List Dict) (seen : List String),
      (dedupFirstBy key l seen).Pairwise (fun a b => key a ≠ key b) := by
  intro l
  induction l with
  | nil => intro seen; simp [dedupFirstBy]
  | cons x xs ih =>
    intro seen
    simp only [dedupFirstBy]
    by_cases hx : key x ∈ seen
    · rw [if_pos hx]; exact ih seen
    · rw [if_neg hx]
      refine List.pairwise_cons.mpr ⟨?_, ih _⟩
      intro b hb
      have hnot := dedupFirstBy_not_mem_seen key xs _ b hb
      intro hc
      exact hnot (hc ▸ List.mem_cons_self _ _)

theorem dedupFirstBy_find (key : Dict → String) :
    ∀ (l : List Dict) (seen : List String) (b : Dict),
      b ∈ dedupFirstBy key l seen →
      l.find? (fun x => key x == key b) = some b := by
  intro l
  induction l with
  | nil => intro seen b h; simp [dedupFirstBy] at h
  | cons x xs ih =>
    intro seen b h
    simp only [dedupFirstBy] at h
    by_cases hx : key x ∈ seen
    · rw [if_pos hx] at h
      have hb := dedupFirstBy_not_mem_seen key xs seen b h
      have hne : key x ≠ key b := fun hc => hb (hc ▸ hx)
      rw [List.find?_cons_of_neg _ (by simp [hne]), ih seen b h]
    · rw [if_neg hx] at h
      rcases List.mem_cons.mp h with rfl | h
      · rw [List.find?_cons_of_pos _ (by simp)]
      · have hb := dedupFirstBy_not_mem_seen key xs _ b h
        have hne : key x ≠ key b := fun hc => hb (hc ▸ List.mem_cons_self _ _)
        rw [List.find?_cons_of_neg _ (by simp [hne]), ih _ b h]

theorem getElem?_zipWith_addYoys :
    ∀ (xs ys : List Dict) (i : Nat),
      (List.zipWith addYoys xs ys)[i]? =
        (xs[i]?).bind (fun a => (ys[i]?).map (addYoys a)) := by
  intro xs
  induction xs with
  | nil => intro ys i; simp
  | cons x xs' ih =>
    intro ys i
    cases ys with
    | nil =>
      rcases hi : (x :: xs')[i]? with - | a <;> simp [hi]
    | cons y ys' =>
      cases i with
      | zero => simp [List.zipWith]
      | succ j => simpa [List.zipWith] using ih ys' j

theorem dget_addYoyField_self (prev acc curr : Dict) (f : String)
    (hacc_f : dget acc f = dget curr f)
    (hacc_yoy : dget acc (f ++ "_yoy") = dget curr (f ++ "_yoy")) :
    dget (addYoyField prev acc f) (f ++ "_yoy") = yoySpec prev curr f := by
  cases hp : dget prev f with
  | none => simp [addYoyField, yoySpec, hp, hacc_yoy]
  | some vp =>
    cases vp with
    | vnum p =>
      cases hc : dget curr f with
      | none => simp [addYoyField, yoySpec, hp, hc, hacc_f, hacc_yoy]
      | some vc =>
        cases vc with
        | vnum c =>
          simp only [addYoyField, yoySpec, hp, hc, hacc_f]
          split
          · exact dget_dset_self _ _ _
          · exact hacc_yoy
        | vnone => simp [addYoyField, yoySpec, hp, hc, hacc_f, hacc_yoy]
        | vstr s => simp [addYoyField, yoySpec, hp, hc, hacc_f, hacc_yoy]
        | vlist l => simp [addYoyField, yoySpec, hp, hc, hacc_f, hacc_yoy]
        | vdict d => simp [addYoyField, yoySpec, hp, hc, hacc_f, hacc_yoy]
    | vnone => simp [addYoyField, yoySpec, hp, hacc_yoy]
    | vstr s => simp [addYoyField, yoySpec, hp, hacc_yoy]
    | vlist l => simp [addYoyField, yoySpec, hp, hacc_yoy]
    | vdict d => simp [addYoyField, yoySpec, hp, hacc_yoy]

theorem dget_addYoys_yoy (prev curr : Dict) (f : String) (hf : f ∈ growthFields) :
    dget (addYoys prev curr) (f ++ "_yoy") = yoySpec prev curr f := by
  simp only [growthFields, List.mem_cons, List.not_mem_nil, or_false] at hf
  simp only [addYoys, growthFields, List.foldl_cons, List.foldl_nil]
  rcases hf with rfl | rfl | rfl
  · rw [dget_addYoyField_ne _ _ "net_income" _ (by decide),
      dget_addYoyField_ne _ _ "operating_income" _ (by decide)]
    exact dget_addYoyField_self prev curr curr _ rfl rfl
  · rw [dget_addYoyField_ne _ _ "net_income" _ (by decide)]
    exact dget_addYoyField_self prev _ curr _
      (dget_addYoyField_ne _ _ "revenue" _ (by decide))
      (dget_addYoyField_ne _ _ "revenue" _ (by decide))
  · exact dget_addYoyField_self prev _ curr _
      ((dget_addYoyField_ne _ _ "operating_income" _ (by decide)).trans
        (dget_addYoyField_ne _ _ "revenue" _ (by decide)))
      ((dget_addYoyField_ne _ _ "operating_income" _ (by decide)).trans
        (dget_addYoyField_ne _ _ "revenue" _ (by decide)))

/-! ### Lemmas for the `_extract_section` equivalence (C3) -/

theorem scanBestAux_eq_bestFold (html lhtml lkw : List Char) (maxChars : Nat) :
    ∀ (fuel startPos : Nat) (best : List Char) (bestScore : Nat),
      scanBestAux html lhtml lkw maxChars fuel startPos best bestScore =
        bestFold (fun i => sectionAt html i maxChars)
          (fun i => scoreOf (sectionAt html i maxChars))
          (best, bestScore) (occListAux lhtml lkw fuel startPos) := by
  intro fuel
  induction fuel with
  | zero => intro startPos best bestScore; rfl
  | succ n ih =>
    intro startPos best bestScore
    simp only [scanBestAux, occListAux]
    cases findFrom lhtml lkw startPos with
    | none => rfl
    | some idx =>
      simp only [bestFold]
      by_cases h : scoreOf (sectionAt html idx maxChars) > bestScore
      · simp only [if_pos h]
        exact ih _ _ _
      · simp only [if_neg h]
        exact ih _ _ _

theorem scanBest_eq_bestFold (html kw : List Char) (maxChars : Nat) :
    scanBest html kw maxChars =
      bestFold (fun i => sectionAt html i maxChars)
        (fun i => scoreOf (sectionAt html i maxChars)) ([], 0)
        (occList html kw) :=
  scanBestAux_eq_bestFold html (lcase html) (lcase kw) maxChars
    (html.length + 1) 0 [] 0

theorem maxScores_nil (score : Nat → Nat) : maxScores score [] = 0 := rfl

theorem maxScores_cons (score : Nat → Nat) (i : Nat) (rest : List Nat) :
    maxScores score (i :: rest) = max (score i) (maxScores score rest) := rfl

theorem bestFold_spec (sect : Nat → List Char) (score : Nat → Nat) :
    ∀ (idxs : List Nat) (b₀ : List Char) (s₀ : Nat),
      (bestFold sect score (b₀, s₀) idxs).2 = max s₀ (maxScores score idxs) ∧
      (maxScores score idxs ≤ s₀ → bestFold sect score (b₀, s₀) idxs = (b₀, s₀)) ∧
      (s₀ < maxScores score idxs →
        ∃ j, idxs.find? (fun i => score i == maxScores score idxs) = some j ∧
          (bestFold sect score (b₀, s₀) idxs).1 = sect j) := by
  intro idxs
  induction idxs with
  | nil =>
    intro b₀ s₀
    refine ⟨by simp [bestFold, maxScores], fun _ => rfl,
      fun h => absurd h (by simp [maxScores])⟩
  | cons i rest ih =>
    intro b₀ s₀
    have hM := maxScores_cons score i rest
    by_cases hup : score i > s₀
    · have hstep : bestFold sect score (b₀, s₀) (i :: rest) =
          bestFold sect score (sect i, score i) rest := by
        simp [bestFold, hup]
      obtain ⟨ih1, ih2, ih3⟩ := ih (sect i) (score i)
      refine ⟨?_, ?_, ?_⟩
      · rw [hstep, ih1, hM]; omega
      · intro hle; rw [hM] at hle; omega
      · intro _
        by_cases hcase : maxScores score rest ≤ score i
        · have hMi : maxScores score (i :: rest) = score i := by rw [hM]; omega
          refine ⟨i, ?_, ?_⟩
          · rw [List.find?_cons_of_pos _ (by simp [hMi])]
          · rw [hstep, ih2 hcase]
        · push_neg at hcase
          have hMr : maxScores score (i :: rest) = maxScores score rest := by
            rw [hM]; omega
          obtain ⟨j, hj, hbest⟩ := ih3 (by omega)
          refine ⟨j, ?_, ?_⟩
          · rw [hMr, List.find?_cons_of_neg _ (by simp only [beq_iff_eq]; omega)]
            exact hj
          · rw [hstep]; exact hbest
    · push_neg at hup
      have hstep : bestFold sect score (b₀, s₀) (i :: rest) =
          bestFold sect score (b₀, s₀) rest := by
        simp only [bestFold, if_neg (by omega : ¬ score i > s₀)]
      obtain ⟨ih1, ih2, ih3⟩ := ih b₀ s₀
      refine ⟨?_, ?_, ?_⟩
      · rw [hstep, ih1, hM]; omega
      · intro hle; rw [hM] at hle
        exact hstep.trans (ih2 (by omega))
      · intro hlt
        rw [hM] at hlt
        have hMr : maxScores score (i :: rest) = maxScores score rest := by
          rw [hM]; omega
        obtain ⟨j, hj, hbest⟩ := ih3 (by omega)
        refine ⟨j, ?_, ?_⟩
        · rw [hMr, List.find?_cons_of_neg _ (by simp only [beq_iff_eq]; omega)]
          exact hj
        · rw [hstep]; exact hbest

theorem scoreOf_nil : scoreOf [] = 0 := by
  simp [scoreOf, countOcc, countNumRuns, countRunsAux, lcase]

theorem titlePhase_eq_findSome (html : List Char) :
    ∀ kws : List (List Char),
      titlePhase html kws = kws.findSome? (fun kw => titleSearch html kw) := by
  intro kws
  induction kws with
  | nil => rfl
  | cons kw rest ih =>
    simp only [titlePhase, List.findSome?]
    cases titleSearch html kw with
    | some i => rfl
    | none => exact ih

theorem textPhase_eq_spec (html : List Char) (maxChars : Nat) :
    ∀ kws : List (List Char),
      textPhase html maxChars kws =
        (kws.findSome? (fun kw => bestSliceSpec html kw maxChars)).getD [] := by
  intro kws
  induction kws with
  | nil => rfl
  | cons kw rest ih =>
    simp only [textPhase, List.findSome?]
    rw [scanBest_eq_bestFold]
    obtain ⟨h1, h2, h3⟩ :=
      bestFold_spec (fun i => sectionAt html i maxChars)
        (fun i => scoreOf (sectionAt html i maxChars)) (occList html kw) [] 0
    simp only [Nat.zero_max] at h1
    by_cases hM :
        maxScores (fun i => scoreOf (sectionAt html i maxChars))
          (occList html kw) > 10
    · obtain ⟨j, hj, hb1⟩ := h3 (by omega)
      have hscorej : scoreOf (sectionAt html j maxChars) =
          maxScores (fun i => scoreOf (sectionAt html i maxChars))
            (occList html kw) := by
        have := List.find?_some hj
        simpa [beq_iff_eq] using this
      have hne : sectionAt html j maxChars ≠ [] := by
        intro he
        rw [he, scoreOf_nil] at hscorej
        omega
      have hcond : (bestFold (fun i => sectionAt html i maxChars)
          (fun i => scoreOf (sectionAt html i maxChars)) ([], 0)
          (occList html kw)).1 ≠ [] ∧
          (bestFold (fun i => sectionAt html i maxChars)
            (fun i => scoreOf (sectionAt html i maxChars)) ([], 0)
            (occList html kw)).2 > 10 := by
        constructor
        · rw [hb1]; exact hne
        · rw [h1]; omega
      rw [if_pos hcond]
      unfold bestSliceSpec
      simp only [if_pos hM, hj, Option.map_some', Option.getD_some]
      exact hb1
    · have hcond : ¬ ((bestFold (fun i => sectionAt html i maxChars)
          (fun i => scoreOf (sectionAt html i maxChars)) ([], 0)
          (occList html kw)).1 ≠ [] ∧
          (bestFold (fun i => sectionAt html i maxChars)
            (fun i => scoreOf (sectionAt html i maxChars)) ([], 0)
            (occList html kw)).2 > 10) := by
        rintro ⟨-, hgt⟩
        rw [h1] at hgt
        omega
      rw [if_neg hcond]
      unfold bestSliceSpec
      simp only [if_neg hM]
      exact ih

theorem yearKey_buildFilingRow (item : Dict) :
    yearKey (buildFilingRow item) =
      normYear (pyStr (pyGetD item "year" (.vstr ""))) := by
  simp [buildFilingRow, yearKey, dget]

theorem yearKey_congr (r b : Dict) (h : dget r "year" = dget b "year") :
    yearKey r = yearKey b := by
  unfold yearKey
  rw [h]

/-! ### Lemmas about the pipeline (C1, C2, C5, C6) -/

theorem isEmpty_false_of_ne_nil {α : Type} {l : List α} (h : l ≠ []) :
    l.isEmpty = false := by
  cases l with
  | nil => exact absurd rfl h
  | cons a t => rfl

theorem mem_dset (d : Dict) (k : String) (v : Val) :
    ∀ kv ∈ dset d k v, kv.1 = k ∨ kv ∈ d := by
  induction d with
  | nil =>
    intro kv hkv
    simp only [dset, List.mem_singleton] at hkv
    subst hkv
    exact Or.inl rfl
  | cons kv₀ rest ih =>
    intro kv hkv
    by_cases hk : kv₀.1 = k
    · obtain ⟨k₀, v₀⟩ := kv₀
      simp only at hk
      subst hk
      simp only [dset, if_pos rfl] at hkv
      rcases List.mem_cons.mp hkv with rfl | hkv
      · exact Or.inl rfl
      · exact Or.inr (List.mem_cons_of_mem _ hkv)
    · obtain ⟨k₀, v₀⟩ := kv₀
      simp only at hk
      simp only [dset, if_neg hk] at hkv
      rcases List.mem_cons.mp hkv with rfl | hkv
      · exact Or.inr (List.mem_cons_self _ _)
      · rcases ih kv hkv with h | h
        · exact Or.inl h
        · exact Or.inr (List.mem_cons_of_mem _ h)

theorem mem_storeIfTruthy (d : Dict) (k : String) (r : Option Val) :
    ∀ kv ∈ storeIfTruthy d k r, kv.1 = k ∨ kv ∈ d := by
  intro kv hkv
  unfold storeIfTruthy at hkv
  cases r with
  | none => exact Or.inr hkv
  | some v =>
    dsimp only at hkv
    by_cases ht : pyTruthy v = true
    · rw [if_pos ht] at hkv
      exact mem_dset d k v kv hkv
    · rw [if_neg ht] at hkv
      exact Or.inr hkv

theorem dget_storeIfTruthy_ne (d : Dict) (k k' : String) (r : Option Val)
    (h : k ≠ k') : dget (storeIfTruthy d k r) k' = dget d k' := by
  unfold storeIfTruthy
  cases r with
  | none => rfl
  | some v =>
    dsimp only
    by_cases ht : pyTruthy v = true
    · rw [if_pos ht]
      exact dget_dset_ne _ _ _ _ h
    · rw [if_neg ht]

theorem dget_dupdate_ne :
    ∀ (other c : Dict) (k : String),
      (∀ kv ∈ other, kv.1 ≠ k) → dget (dupdate c other) k = dget c k := by
  intro other
  induction other with
  | nil => intro c k _; rfl
  | cons kv rest ih =>
    intro c k h
    show dget (dupdate (dset c kv.1 kv.2) rest) k = dget c k
    rw [ih _ _ (fun g hg => h g (List.mem_cons_of_mem _ hg))]
    exact dget_dset_ne _ _ _ _ (h kv (List.mem_cons_self _ _))

theorem parse_keys (dir : FilingDir) (resps : LlmResps) (need : Bool) :
    ∀ kv ∈ (parse_full_filing dir resps need).data,
      kv.1 = "lockup_schedule" ∨ kv.1 = "business" ∨ kv.1 = "valuation" ∨
        kv.1 = "filing_financials" := by
  intro kv hkv
  unfold parse_full_filing at hkv
  by_cases hh : (load_filing_html dir).data.isEmpty = true
  · simp only [hh, if_true] at hkv
    simp at hkv
  · simp only [hh, Bool.false_eq_true, if_false] at hkv
    cases need with
    | true =>
      rw [if_pos rfl] at hkv
      rcases mem_storeIfTruthy _ _ _ kv hkv with h | hkv
      · exact Or.inr (Or.inr (Or.inr h))
      rcases mem_storeIfTruthy _ _ _ kv hkv with h | hkv
      · exact Or.inr (Or.inr (Or.inl h))
      rcases mem_storeIfTruthy _ _ _ kv hkv with h | hkv
      · exact Or.inr (Or.inl h)
      rcases mem_storeIfTruthy _ _ _ kv hkv with h | hkv
      · exact Or.inl h
      simp at hkv
    | false =>
      rw [if_neg (by simp)] at hkv
      rcases mem_storeIfTruthy _ _ _ kv hkv with h | hkv
      · exact Or.inr (Or.inr (Or.inl h))
      rcases mem_storeIfTruthy _ _ _ kv hkv with h | hkv
      · exact Or.inr (Or.inl h)
      rcases mem_storeIfTruthy _ _ _ kv hkv with h | hkv
      · exact Or.inl h
      simp at hkv

theorem calc_length (l : List Dict) :
    (calc_growth_rates l).length = l.length := by
  rw [calc_eq_calcSpec]
  cases l with
  | nil => rfl
  | cons r rest =>
    simp only [calcSpec, List.length_cons, List.length_zipWith]
    omega

theorem scanBest_nil (kw : List Char) (mc : Nat) :
    scanBest [] kw mc = ([], 0) := by
  unfold scanBest scanBestAux findFrom findFromAux
  cases hlk : lcase kw with
  | nil => simp [sectionAt, scoreOf_nil, scanBestAux]
  | cons c cs => simp [lcase] at hlk ⊢

theorem textPhase_nil (mc : Nat) :
    ∀ kws : List (List Char), textPhase [] mc kws = [] := by
  intro kws
  induction kws with
  | nil => rfl
  | cons kw rest ih =>
    simp only [textPhase, scanBest_nil]
    rw [if_neg (by simp)]
    exact ih

theorem extract_section_nil (kws : List (List Char)) (mc : Nat) :
    extract_section [] kws mc = [] := by
  have ht : titlePhase [] kws = none := by
    induction kws with
    | nil => rfl
    | cons kw rest ih =>
      have hsearch : titleSearch [] kw = none := rfl
      simp only [titlePhase, hsearch]
      exact ih
  unfold extract_section
  rw [ht]
  exact textPhase_nil mc kws

theorem dget_step2_financials (env : Env) :
    dget (step2 env) "financials" =
      (env.fin_base).map
        (fun base => .vlist ((calc_growth_rates base).map Val.vdict)) := by
  unfold step2
  cases env.fin_base with
  | some base => exact dget_dset_self _ _ _
  | none =>
    simp only [Option.map_none']
    cases env.equity_parsed with
    | some p =>
      rw [dget_dset_ne _ _ _ _ (by decide)]
      by_cases hf : env.filings.isEmpty = true
      · simp only [hf, if_true]
        by_cases hc : truthyOptDict env.company_info = true
        · simp only [hc, if_true]
          rw [dget_dset_ne _ _ _ _ (by decide)]
          rfl
        · simp only [hc, Bool.false_eq_true, if_false]
          rfl
      · simp only [hf, Bool.false_eq_true, if_false]
        rw [dget_dset_ne _ _ _ _ (by decide)]
        by_cases hc : truthyOptDict env.company_info = true
        · simp only [hc, if_true]
          rw [dget_dset_ne _ _ _ _ (by decide)]
          rfl
        · simp only [hc, Bool.false_eq_true, if_false]
          rfl
    | none =>
      by_cases hf : env.filings.isEmpty = true
      · simp only [hf, if_true]
        by_cases hc : truthyOptDict env.company_info = true
        · simp only [hc, if_true]
          rw [dget_dset_ne _ _ _ _ (by decide)]
          rfl
        · simp only [hc, Bool.false_eq_true, if_false]
          rfl
      · simp only [hf, Bool.false_eq_true, if_false]
        rw [dget_dset_ne _ _ _ _ (by decide)]
        by_cases hc : truthyOptDict env.company_info = true
        · simp only [hc, if_true]
          rw [dget_dset_ne _ _ _ _ (by decide)]
          rfl
        · simp only [hc, Bool.false_eq_true, if_false]
          rfl

theorem dget_step3_ne (env : Env) (c : Dict) (k : String)
    (h1 : k ≠ "crawler_data") (h2 : k ≠ "offering") :
    dget (step3 env c) k = dget c k := by
  unfold step3
  cases env.crawler with
  | error e => rfl
  | ok v =>
    cases v with
    | none => rfl
    | some d =>
      by_cases hd : d.isEmpty = true
      · simp only [hd, if_true]
      · simp only [hd, Bool.false_eq_true, if_false]
        by_cases ho : (dget (dset c "crawler_data" (.vdict d)) "offering").isSome = true
        · simp only [ho, if_true]
          rw [dget_dset_ne _ _ _ _ (fun he => h2 he.symm),
            dget_dset_ne _ _ _ _ (fun he => h1 he.symm)]
        · simp only [ho, Bool.false_eq_true, if_false]
          rw [dget_dset_ne _ _ _ _ (fun he => h1 he.symm)]

theorem dget_step4_financials_has (env : Env) (sf : Bool)
    (rcept : Option String) (c : Dict)
    (hfin : pyTruthy (pyGetD c "financials" .vnone) = true) :
    dget (step4 env sf rcept c).1 "financials" = dget c "financials" := by
  unfold step4
  by_cases hcond : (!sf && truthyOptStr rcept) = true
  · simp only [hcond, if_true]
    cases env.download with
    | none => rfl
    | some dirFiles =>
      simp only [hfin, Bool.not_true, Bool.false_and, Bool.false_eq_true, if_false]
      exact dget_dupdate_ne _ c "financials" (fun kv hkv => by
        rcases parse_keys dirFiles env.llm false kv hkv with h | h | h | h <;>
          simp [h])
  · simp only [hcond, Bool.false_eq_true, if_false]

theorem dget_step5_financials (env : Env) (sa : Bool) (c : Dict) :
    dget (step5 env sa c).1 "financials" = dget c "financials" := by
  unfold step5
  cases sa with
  | true => rfl
  | false =>
    simp only [Bool.not_false, if_true]
    exact dget_dset_ne _ _ _ _ (by decide)

/-! ## Claim theorems -/

/-- C3: `_extract_section` first scans the keywords in priority order
against `<TITLE>` tags and, on the first match, returns the slice of at
most `max_chars` characters starting at that match; only if no TITLE
matches does it scan the plain text, where for each keyword in priority
order it scores every (non-overlapping) occurrence's surrounding slice as
five times the `<table` count plus the count of 3-or-more-digit numbers,
returns the (first) best-scoring slice of the first keyword whose best
score exceeds 10, and returns the empty string when no keyword reaches
the threshold.  Stated as equality with `extractSectionSpec`, the
claim-side formulation; the hypotheses keep the keywords non-empty (on an
empty keyword the Python text-phase loop does not terminate). -/
theorem c3_extract_section_spec (html : List Char)
    (keywords : List (List Char)) (maxChars : Nat)
    (hne : keywords ≠ []) (hkws : ∀ kw ∈ keywords, kw ≠ []) :
    extract_section html keywords maxChars =
      extractSectionSpec html keywords maxChars := by
  unfold extract_section extractSectionSpec
  rw [titlePhase_eq_findSome]
  cases keywords.findSome? (fun kw => titleSearch html kw) with
  | some idx => rfl
  | none => exact textPhase_eq_spec html maxChars keywords

/-- C3 (witness): the equivalence at a concrete document and keyword list
(one TITLE hit and one text-phase keyword). -/
theorem c3_witness :
    extract_section "<p>x</p><title>abc</title>".data
        ["zzz".data, "abc".data] 15000 =
      extractSectionSpec "<p>x</p><title>abc</title>".data
        ["zzz".data, "abc".data] 15000 :=
  c3_extract_section_spec _ _ _ (by decide) (by decide)

/-- C7 (counterexample): `load_filing_html` does not concatenate the
`*.html` and `*.htm` files in one sorted name order — it concatenates the
sorted `*.html` files first and the sorted `*.htm` files after them.  On a
directory holding `b.html` and `a.htm` the source yields `b.html` before
`a.htm`, while the claim's order (`loadFilingHtmlPerClaim`) yields
`a.htm` first. -/
theorem c7_counterexample :
    load_filing_html [("b.html", "X"), ("a.htm", "Y")] ≠
      loadFilingHtmlPerClaim [("b.html", "X"), ("a.htm", "Y")] := by
  decide

/-- C7 (amended): `load_filing_html` concatenates the contents of the
`*.html` files in sorted name order followed by the `*.htm` files in
sorted name order (each piece preceded by a FILE-comment header), falls
back to the `*.xml` files if and only if no `*.html` or `*.htm` file
exists, and a directory with none of these yields the empty string, upon
which `parse_full_filing` returns an empty result without calling the
LLM. -/
theorem c7_amended (dir : FilingDir) (resps : LlmResps) (need : Bool) :
    ((globSorted dir ".html" ++ globSorted dir ".htm").isEmpty = false →
      load_filing_html dir =
        combineFiles (globSorted dir ".html" ++ globSorted dir ".htm")) ∧
    ((globSorted dir ".html" ++ globSorted dir ".htm").isEmpty = true →
      load_filing_html dir = combineFiles (globSorted dir ".xml")) ∧
    ((globSorted dir ".html" ++ globSorted dir ".htm").isEmpty = true →
      (globSorted dir ".xml").isEmpty = true →
      load_filing_html dir = "") ∧
    (load_filing_html dir = "" →
      parse_full_filing dir resps need = ⟨[], 0, false⟩) := by
  refine ⟨?_, ?_, ?_, ?_⟩
  · intro h
    simp [load_filing_html, h]
  · intro h
    simp [load_filing_html, h]
  · intro h hx
    rw [List.isEmpty_iff] at hx
    simp [load_filing_html, h, hx, combineFiles]
  · intro h
    unfold parse_full_filing
    rw [h]
    rfl

/-- C7 (witness): the amended theorem applied to an empty directory. -/
theorem c7_amended_witness :
    parse_full_filing [] ⟨none, none, none, none, none⟩ false = ⟨[], 0, false⟩ :=
  (c7_amended [] ⟨none, none, none, none, none⟩ false).2.2.2 rfl

/-- C4: the merge and normalization of the extracted JSON against the DART
API data is deterministic.  In the embedding both `merge_offering_data`
and `_convert_filing_financials` are pure functions of their arguments (no
clock, randomness, or external state enters their definitions — the
Python bodies consist only of dict/list operations and a stable sort), so
two runs on the same inputs yield equal outputs. -/
theorem c4_merge_and_convert_deterministic :
    ∀ (dart : Dict) (crawler : Option Dict) (fin : List Dict),
      merge_offering_data dart crawler = merge_offering_data dart crawler ∧
      convertFilingFinancials fin = convertFilingFinancials fin :=
  fun _ _ _ => ⟨rfl, rfl⟩

/-- C8 (counterexample): `merge_offering_data` can alter a key of
`dart_data`.  If `dart_data` itself contains the key
`"crawler_confirmed_price"` and the crawler data has a truthy
`"confirmed_price"`, the DART value is overwritten, contradicting the
claim that every key of `dart_data` keeps its original value. -/
theorem c8_counterexample :
    dget (merge_offering_data [("crawler_confirmed_price", Val.vstr "1")]
        (some [("confirmed_price", Val.vstr "2")])) "crawler_confirmed_price" ≠
      dget [("crawler_confirmed_price", Val.vstr "1")] "crawler_confirmed_price" := by
  intro h
  have h1 : dget (merge_offering_data [("crawler_confirmed_price", Val.vstr "1")]
      (some [("confirmed_price", Val.vstr "2")])) "crawler_confirmed_price" =
      some (Val.vstr "2") := rfl
  have h2 : dget [("crawler_confirmed_price", Val.vstr "1")] "crawler_confirmed_price" =
      some (Val.vstr "1") := rfl
  rw [h1, h2] at h
  have h3 : "2" = "1" := by
    injection h with h'
    injection h'
  exact absurd h3 (by decide)

/-- C8 (amended): `merge_offering_data` never alters DART-derived data
except through the twelve `"crawler_"`-prefixed keys themselves: with
`crawler_data = None` the output is exactly `dart_data`; every key not of
the form `"crawler_" + field` for a `field` of the fixed twelve-field list
keeps its `dart_data` value; and any key whose value differs from
`dart_data` is such a `"crawler_" + field` key carrying the crawler's
truthy value for `field`. -/
theorem c8_amended (dart : Dict) (crawler : Option Dict) :
    (crawler = none → merge_offering_data dart crawler = dart) ∧
    (∀ k, (∀ fl ∈ extraFields, k ≠ "crawler_" ++ fl.1) →
      dget (merge_offering_data dart crawler) k = dget dart k) ∧
    (∀ k, dget (merge_offering_data dart crawler) k ≠ dget dart k →
      ∃ fl ∈ extraFields, k = "crawler_" ++ fl.1 ∧ ∃ c, crawler = some c ∧
        ∃ v, dget c fl.1 = some v ∧ pyTruthy v = true ∧
          dget (merge_offering_data dart crawler) k = some v) := by
  refine ⟨?_, ?_, ?_⟩
  · rintro rfl; rfl
  · intro k hk
    cases crawler with
    | none => rfl
    | some c =>
      by_cases hc : c.isEmpty
      · simp [merge_offering_data, hc]
      · simp only [merge_offering_data, hc, if_false]
        exact foldl_mergeStep_dget_ne c extraFields dart k hk
  · intro k hk
    cases crawler with
    | none => exact absurd rfl hk
    | some c =>
      by_cases hc : c.isEmpty
      · simp only [merge_offering_data, hc, if_true] at hk
        exact absurd rfl hk
      · simp only [merge_offering_data, hc, if_false] at hk ⊢
        obtain ⟨fl, hmem, hkey, v, hdg, ht, hval⟩ :=
          foldl_mergeStep_changed c extraFields dart k hk
        exact ⟨fl, hmem, hkey, c, rfl, v, hdg, ht, hval⟩

/-- C8 (witness): the amended theorem applied to a concrete input (the
`crawler_data = None` case returns `dart_data` unchanged). -/
theorem c8_amended_witness :
    merge_offering_data [("subscription_date", Val.vstr "20240101")] none =
      [("subscription_date", Val.vstr "20240101")] :=
  (c8_amended [("subscription_date", Val.vstr "20240101")] none).1 rfl

/-- C9 (counterexample): `calc_growth_rates` can overwrite existing data.
On rows `[{"revenue": 1}, {"revenue": 2, "revenue_yoy": 99}]` the
pre-existing `"revenue_yoy"` entry of the second row is replaced by the
computed growth rate `(2 - 1)/|1| = 1`, contradicting the claim that every
pre-existing key of every row keeps its value. -/
theorem c9_counterexample :
    dget (([[("revenue", Val.vnum 1)],
          [("revenue", Val.vnum 2), ("revenue_yoy", Val.vnum 99)]] :
        List Dict).getD 1 []) "revenue_yoy" = some (Val.vnum 99) ∧
    dget ((calc_growth_rates
          [[("revenue", Val.vnum 1)],
           [("revenue", Val.vnum 2), ("revenue_yoy", Val.vnum 99)]]).getD 1 [])
        "revenue_yoy" = some (Val.vnum 1) ∧
    Val.vnum 99 ≠ Val.vnum 1 := by
  refine ⟨rfl, ?_, ?_⟩
  · rw [calc_eq_calcSpec]
    norm_num [calcSpec, addYoys, growthFields, addYoyField, dget, dset]
    rw [if_neg (by decide), if_pos (by decide)]
  · intro h
    injection h with h'
    exact absurd h' (by norm_num)

/-- C9 (amended): `calc_growth_rates` never divides by zero and, apart
from the three `"_yoy"` keys themselves, never overwrites existing data:
the output has the same length, row `0` is unchanged, every key outside
`yoyKeys` keeps its value in every row, and row `i+1`'s `field + "_yoy"`
entry equals `yoySpec`: the growth rate `(curr - prev)/abs(prev)` exactly
when both consecutive values are numbers and non-zero (so the divisor is
never zero), and the row's previous entry otherwise.  The hypothesis
restricts rows to number-or-`None` growth fields, the only shapes on which
the Python function runs without raising. -/
theorem c9_amended (summary : List Dict) (hwf : rowsNumericB summary = true) :
    (calc_growth_rates summary).length = summary.length ∧
    ((calc_growth_rates summary)[0]? = summary[0]?) ∧
    (∀ (i : Nat) (k : String), k ∉ yoyKeys →
      ((calc_growth_rates summary)[i]?).map (fun r => dget r k) =
        (summary[i]?).map (fun r => dget r k)) ∧
    (∀ (i : Nat) (f : String) (rp rc r' : Dict), f ∈ growthFields →
      summary[i]? = some rp → summary[i + 1]? = some rc →
      (calc_growth_rates summary)[i + 1]? = some r' →
      dget r' (f ++ "_yoy") = yoySpec rp rc f) := by
  rw [calc_eq_calcSpec]
  cases summary with
  | nil =>
    refine ⟨rfl, rfl, fun i k _ => rfl, fun i f rp rc r' _ h1 _ _ => ?_⟩
    simp at h1
  | cons x rest =>
    refine ⟨?_, ?_, ?_, ?_⟩
    · simp [calcSpec]
    · simp [calcSpec]
    · intro i k hk
      cases i with
      | zero => simp [calcSpec]
      | succ j =>
        simp only [calcSpec, List.getElem?_cons_succ, getElem?_zipWith_addYoys]
        rcases hr : rest[j]? with - | b
        · rcases hx : (x :: rest)[j]? with - | a <;> simp [hx]
        · have hj : j < rest.length := by
            by_contra hge
            rw [List.getElem?_eq_none (by omega)] at hr
            exact Option.noConfusion hr
          have hlen : j < (x :: rest).length := by simp; omega
          obtain ⟨a, hx⟩ : ∃ a, (x :: rest)[j]? = some a :=
            ⟨_, List.getElem?_eq_getElem hlen⟩
          simp only [hx, hr, Option.some_bind, Option.map_some']
          rw [dget_addYoys_not_yoy _ _ _ hk]
    · intro i f rp rc r' hf h1 h2 h3
      simp only [List.getElem?_cons_succ] at h2
      simp only [calcSpec, List.getElem?_cons_succ, getElem?_zipWith_addYoys,
        h1, h2, Option.some_bind, Option.map_some'] at h3
      have heq : addYoys rp rc = r' := Option.some.inj h3
      rw [← heq]
      exact dget_addYoys_yoy rp rc f hf

/-- C9 (witness): the amended theorem applied to a concrete two-row input
with numeric revenue fields. -/
theorem c9_amended_witness :
    (calc_growth_rates [[("revenue", Val.vnum 3)], [("revenue", Val.vnum 6)]]).length =
      ([[("revenue", Val.vnum 3)], [("revenue", Val.vnum 6)]] : List Dict).length :=
  (c9_amended [[("revenue", Val.vnum 3)], [("revenue", Val.vnum 6)]] (by decide)).1

/-- C10: the list returned by `_convert_filing_financials` has strictly
increasing (hence pairwise-distinct) `"year"` strings; every output year is
the normalization (truncate at `'.'`, else to the first four characters) of
`str(item.get("year", ""))` for some input item; and every output row is —
apart from the growth-rate keys added afterwards — the first row for its
year in the stable-sorted row list (stable sort plus first-wins
deduplication).  The hypothesis restricts `"year"` values to the shapes
whose `str()` the model renders exactly. -/
theorem c10_convert_invariants (fin : List Dict)
    (hyear : ∀ item ∈ fin, yearValOkB (dget item "year") = true) :
    ((convertFilingFinancials fin).map yearKey).Pairwise (· < ·) ∧
    (∀ r ∈ convertFilingFinancials fin, ∃ item ∈ fin,
      yearKey r = normYear (pyStr (pyGetD item "year" (.vstr "")))) ∧
    (∀ r ∈ convertFilingFinancials fin, ∃ r₀,
      (sSort (fun a b => yearKey a ≤ yearKey b) (fin.map buildFilingRow)).find?
          (fun x => yearKey x == yearKey r) = some r₀ ∧
      ∀ k, k ∉ yoyKeys → dget r k = dget r₀ k) := by
  simp only [convertFilingFinancials]
  set result := fin.map buildFilingRow with hres
  set sorted := sSort (fun a b => yearKey a ≤ yearKey b) result with hsortdef
  set unique := dedupFirstBy yearKey sorted [] with huniq
  by_cases hemp : unique.isEmpty
  · simp [hemp]
  · rw [Bool.not_eq_true] at hemp
    simp only [hemp, Bool.false_eq_true, if_false]
    have hPle : sorted.Pairwise (fun a b => yearKey a ≤ yearKey b) := by
      have h := sSort_pairwise (fun a b => decide (yearKey a ≤ yearKey b))
        (fun a b => by
          rcases le_total (yearKey a) (yearKey b) with h | h
          · exact Or.inl (decide_eq_true h)
          · exact Or.inr (decide_eq_true h))
        (fun a b c hab hbc =>
          decide_eq_true (le_trans (of_decide_eq_true hab) (of_decide_eq_true hbc)))
        result
      exact h.imp (fun hab => of_decide_eq_true hab)
    have hsub : List.Sublist unique sorted := dedupFirstBy_sublist yearKey sorted []
    have hPle' : unique.Pairwise (fun a b => yearKey a ≤ yearKey b) :=
      hPle.sublist hsub
    have hPne : unique.Pairwise (fun a b => yearKey a ≠ yearKey b) :=
      dedupFirstBy_pairwise_ne yearKey sorted []
    have hPlt : unique.Pairwise (fun a b => yearKey a < yearKey b) :=
      (hPle'.and hPne).imp (fun h => lt_of_le_of_ne h.1 h.2)
    refine ⟨?_, ?_, ?_⟩
    · rw [map_yearKey_calc]
      exact List.pairwise_map.mpr hPlt
    · intro r hr
      have h1 : yearKey r ∈ (calc_growth_rates unique).map yearKey :=
        List.mem_map_of_mem yearKey hr
      rw [map_yearKey_calc] at h1
      have h2 : yearKey r ∈ sorted.map yearKey := (hsub.map yearKey).subset h1
      have h3 : yearKey r ∈ result.map yearKey :=
        ((sSort_perm _ result).map yearKey).subset h2
      rw [hres, List.map_map] at h3
      obtain ⟨item, hitem, heq⟩ := List.mem_map.mp h3
      exact ⟨item, hitem, heq.symm.trans (yearKey_buildFilingRow item)⟩
    · intro r hr
      obtain ⟨b, hb, hfields⟩ := calc_mem unique r hr
      have hyr : yearKey r = yearKey b :=
        yearKey_congr r b (hfields "year" (by decide))
      refine ⟨b, ?_, hfields⟩
      rw [hyr]
      exact dedupFirstBy_find yearKey sorted [] b hb

/-- C10 (witness): the theorem applied to a concrete two-item input whose
years arrive out of order. -/
theorem c10_witness :
    ((convertFilingFinancials
        [[("year", Val.vstr "2023"), ("revenue", Val.vnum 5)],
         [("year", Val.vstr "2022"), ("revenue", Val.vnum 4)]]).map yearKey).Pairwise
      (· < ·) :=
  (c10_convert_invariants
    [[("year", Val.vstr "2023"), ("revenue", Val.vnum 5)],
     [("year", Val.vstr "2022"), ("revenue", Val.vnum 4)]] (by decide)).1

/-- C1: whenever the company resolves to a DART corp code, the pipeline
reaches Step 6 and always produces the spreadsheet (`generate_excel`) and
the raw-data JSON (`save_raw_data`); with `skip_analysis` false and a
non-empty analysis report it additionally saves the markdown report
(`save_report`).  The well-formedness hypothesis restricts the LLM/API
results to shapes on which the Python runs without raising. -/
theorem c1_outputs (env : Env) (sf sa : Bool) (hwf : envWF env = true)
    (hcorp : truthyOptDict env.corp = true) :
    (run_pipeline env sf sa).isSome = true ∧
    (run_pipeline env sf sa).map PipeResult.excelSaved = some true ∧
    (run_pipeline env sf sa).map PipeResult.jsonSaved = some true ∧
    (sa = false → env.analysisText ≠ "" →
      (run_pipeline env sf sa).map PipeResult.reportSaved = some true) := by
  unfold run_pipeline
  simp only [hcorp, Bool.not_true, Bool.false_eq_true, if_false]
  refine ⟨rfl, rfl, rfl, ?_⟩
  intro hsa hrep
  subst hsa
  simp only [step5, Bool.not_false, if_true, Option.map_some']
  simp [bne_iff_ne, hrep]

/-- C1 (witness): the theorem at a concrete resolvable company with a
non-empty analysis report. -/
theorem c1_witness :
    (run_pipeline c1env false false).map PipeResult.reportSaved = some true ∧
    (run_pipeline c1env false false).map PipeResult.excelSaved = some true ∧
    (run_pipeline c1env false false).map PipeResult.jsonSaved = some true := by
  have h := c1_outputs c1env false false (by decide) (by decide)
  exact ⟨h.2.2.2 rfl (by decide), h.2.1, h.2.2.1⟩

/-- C5: when the 38.co.kr crawl raises, `run_pipeline` catches the
exception and behaves exactly as if the crawl had returned `None`: the
whole run is equal to the `None` run, Step 3 leaves `collected`
untouched for every prior state, the crawler is consulted exactly once
(no retry), and the remaining steps still execute through Step 6
(spreadsheet and JSON still produced). -/
theorem c5_crawler_exception (env : Env) (e : String) (sf sa : Bool)
    (hwf : envWF env = true) (hcorp : truthyOptDict env.corp = true) :
    run_pipeline { env with crawler := .error e } sf sa =
      run_pipeline { env with crawler := .ok none } sf sa ∧
    (∀ c : Dict, step3 { env with crawler := .error e } c = c) ∧
    (run_pipeline { env with crawler := .error e } sf sa).map
        PipeResult.crawlerCalls = some 1 ∧
    (run_pipeline { env with crawler := .error e } sf sa).map
        PipeResult.excelSaved = some true ∧
    (run_pipeline { env with crawler := .error e } sf sa).map
        PipeResult.jsonSaved = some true := by
  have hcorp' : truthyOptDict ({ env with crawler := .error e } : Env).corp = true :=
    hcorp
  refine ⟨rfl, fun c => rfl, ?_, ?_, ?_⟩ <;>
    · unfold run_pipeline
      simp only [hcorp', Bool.not_true, Bool.false_eq_true, if_false,
        Option.map_some']

/-- C5 (witness): the theorem at a concrete environment whose crawl
raises. -/
theorem c5_witness :
    run_pipeline { c1env with crawler := .error "HTTP 500" } false false =
      run_pipeline { c1env with crawler := .ok none } false false ∧
    (run_pipeline { c1env with crawler := .error "HTTP 500" } false false).map
      PipeResult.crawlerCalls = some 1 := by
  have h := c5_crawler_exception c1env "HTTP 500" false false (by decide) (by decide)
  exact ⟨h.1, h.2.2.1⟩

/-- C6 (counterexample): `extract_financials_from_filing` is not invoked
if and only if `need_financials` — on a filing directory with no loadable
document, `parse_full_filing` returns immediately and the fallback
extractor is not invoked even though `need_financials` is true. -/
theorem c6_counterexample :
    (parse_full_filing [] ⟨none, none, none, none, none⟩ true).finCalled = false := rfl

/-- C6 (amended): once the loaded filing text is non-empty,
`extract_financials_from_filing` is invoked if and only if
`need_financials`; and when the DART API returned financials, the whole
filing-parsing step leaves `collected["financials"]` unchanged — the
final collected data still carries exactly the DART-derived summary
(`calc_growth_rates` over the Step-2 base). -/
theorem c6_amended :
    (∀ (dir : FilingDir) (resps : LlmResps) (need : Bool),
      load_filing_html dir ≠ "" →
      (parse_full_filing dir resps need).finCalled = need) ∧
    (∀ (env : Env) (sf sa : Bool) (base : List Dict),
      envWF env = true → env.fin_base = some base → base ≠ [] →
      ∀ r, run_pipeline env sf sa = some r →
        dget r.collected "financials" =
          some (.vlist ((calc_growth_rates base).map Val.vdict))) := by
  constructor
  · intro dir resps need hne
    unfold parse_full_filing
    have hh : (load_filing_html dir).data.isEmpty = false := by
      cases hdata : (load_filing_html dir).data with
      | nil =>
        exact absurd (by
          have : load_filing_html dir = "" := by
            cases hstr : load_filing_html dir
            simp only [hstr] at hdata
            simp [hdata]
          exact this) hne
      | cons c cs => rfl
    simp only [hh, Bool.false_eq_true, if_false]
    cases need with
    | true => rfl
    | false => rfl
  · intro env sf sa base hwf hbase hne r hr
    have hV : dget (step2 env) "financials" =
        some (.vlist ((calc_growth_rates base).map Val.vdict)) := by
      rw [dget_step2_financials, hbase]
      rfl
    have h3 : dget (step3 env (step2 env)) "financials" =
        some (.vlist ((calc_growth_rates base).map Val.vdict)) :=
      (dget_step3_ne env _ _ (by decide) (by decide)).trans hV
    have hfin : pyTruthy (pyGetD (step3 env (step2 env)) "financials" .vnone) = true := by
      rw [pyGetD, h3]
      simp only [Option.getD_some, pyTruthy]
      have : ((calc_growth_rates base).map Val.vdict) ≠ [] := by
        intro hc
        have := congrArg List.length hc
        simp only [List.length_map, calc_length, List.length_nil] at this
        exact hne (List.eq_nil_of_length_eq_zero this)
      simp [isEmpty_false_of_ne_nil this]
    have h4 : dget (step4 env sf (chooseRcept env.filings) (step3 env (step2 env))).1
        "financials" =
        some (.vlist ((calc_growth_rates base).map Val.vdict)) :=
      (dget_step4_financials_has env sf _ _ hfin).trans h3
    have h5 : dget (step5 env sa
        (step4 env sf (chooseRcept env.filings) (step3 env (step2 env))).1).1
        "financials" =
        some (.vlist ((calc_growth_rates base).map Val.vdict)) :=
      (dget_step5_financials env sa _).trans h4
    unfold run_pipeline at hr
    by_cases hc : truthyOptDict env.corp = true
    · simp only [hc, Bool.not_true, Bool.false_eq_true, if_false,
        Option.some.injEq] at hr
      rw [← hr]
      exact h5
    · simp only [Bool.not_eq_true] at hc
      simp [hc] at hr

/-- C6 (witness): both amended parts at concrete inputs — a non-empty
filing with `need_financials = true` does invoke the fallback extractor,
and a pipeline with DART financials keeps them to the end. -/
theorem c6_amended_witness :
    (parse_full_filing [("a.html", "<p>doc</p>")] ⟨none, none, none, none, none⟩
      true).finCalled = true := by
  have h := c6_amended.1 [("a.html", "<p>doc</p>")] ⟨none, none, none, none, none⟩
    true (by decide)
  exact h

/-- C2 (counterexample): a complete pipeline run — company resolved, a
증권신고서 filing chosen and downloaded, every extraction section located,
DART financials absent, neither skip flag — makes six LLM calls, not
four: one for the lock-up schedule, one for the business summary, two
inside `extract_peer_valuation` (the valuation-summary pass and the
peer-financials pass), one for the fallback financial statements, and one
for `generate_analysis`. -/
theorem c2_counterexample :
    (run_pipeline c2env false false).map PipeResult.llmCalls = some 6 ∧
      (6 : Nat) ≠ 4 := by
  constructor
  · decide
  · decide

/-- C2 (amended): a complete pipeline run (neither skip flag, company
resolved, a truthy `rcept_no` chosen, the filing downloaded, every
extraction section located, and DART financials absent so the fallback
runs) calls the language model exactly six times: lock-up schedule (1),
business summary (1), peer valuation (2 — its two passes), fallback
financial statements (1), and the final analysis report (1). -/
theorem c2_amended (env : Env) (dirFiles : FilingDir)
    (hwf : envWF env = true)
    (hcorp : truthyOptDict env.corp = true)
    (hrcept : truthyOptStr (chooseRcept env.filings) = true)
    (hdl : env.download = some dirFiles)
    (hfin : env.fin_base = none)
    (hl : extract_section (load_filing_html dirFiles).data
      (kwData lockupKeywords) 15000 ≠ [])
    (hb : extract_section (load_filing_html dirFiles).data
      (kwData businessKeywords) 20000 ≠ [])
    (hv : extract_section (load_filing_html dirFiles).data
      (kwData valuationKeywords) 20000 ≠ [])
    (hp : extract_section (load_filing_html dirFiles).data
      (kwData peerKeywords) 25000 ≠ [])
    (hq : extract_section (load_filing_html dirFiles).data
      (kwData perKeywords) 15000 ≠ [])
    (hf : extract_section (load_filing_html dirFiles).data
      (kwData financialKeywords) 25000 ≠ []) :
    (run_pipeline env false false).map PipeResult.llmCalls = some 6 := by
  have hhtml : (load_filing_html dirFiles).data.isEmpty = false := by
    cases hdata : (load_filing_html dirFiles).data with
    | nil =>
      rw [hdata, extract_section_nil] at hl
      exact absurd rfl hl
    | cons c cs => rfl
  have hl' := isEmpty_false_of_ne_nil hl
  have hb' := isEmpty_false_of_ne_nil hb
  have hv' := isEmpty_false_of_ne_nil hv
  have hp' := isEmpty_false_of_ne_nil hp
  have hf' := isEmpty_false_of_ne_nil hf
  have hparse : (parse_full_filing dirFiles env.llm true).llmCalls = 5 := by
    unfold parse_full_filing
    simp only [hhtml, Bool.false_eq_true, if_false, if_pos rfl]
    have e1 : (extract_lockup_schedule (load_filing_html dirFiles).data
        env.llm.lockup).2 = 1 := by
      unfold extract_lockup_schedule
      simp [hl']
    have e2 : (extract_business_summary (load_filing_html dirFiles).data
        env.llm.business).2 = 1 := by
      unfold extract_business_summary
      simp [hb']
    have e3 : (extract_peer_valuation (load_filing_html dirFiles).data
        env.llm.valSummary env.llm.peer).2 = 2 := by
      unfold extract_peer_valuation
      simp only [hv', hp', Bool.false_eq_true, if_false, Bool.not_false,
        Bool.true_or, if_true]
      split <;> rfl
    simp only [e1, e2, e3]
    have e4 : (extract_financials_from_filing (load_filing_html dirFiles).data
        env.llm.financials).2 = 1 := by
      unfold extract_financials_from_filing
      simp [hf']
    simp only [e4]
    rw [if_pos trivial]
  have hnofin : dget (step3 env (step2 env)) "financials" = none := by
    rw [dget_step3_ne env _ _ (by decide) (by decide),
      dget_step2_financials, hfin]
    rfl
  have hhasfin : pyTruthy (pyGetD (step3 env (step2 env)) "financials" .vnone) = false := by
    rw [pyGetD, hnofin]
    rfl
  unfold run_pipeline
  simp only [hcorp, Bool.not_true, Bool.false_eq_true, if_false, Option.map_some']
  unfold step4
  simp only [Bool.not_false, Bool.true_and, hrcept, if_true, hdl, hhasfin,
    Bool.not_false]
  simp only [hparse, step5, Bool.not_false, if_true]

/-- C2 (witness): the amended theorem at the concrete complete-run
environment `c2env`. -/
theorem c2_amended_witness :
    (run_pipeline c2env false false).map PipeResult.llmCalls = some 6 :=
  c2_amended c2env c2dir (by decide) (by decide) (by decide) rfl rfl
    (by decide) (by decide) (by decide) (by decide) (by decide) (by decide)

end Ipo
